import Mathlib

/-!
Verification of the goose-pond-editor core against its specification.

This file shallowly embeds, in Lean, the parts of the repository that the
claims are about:

* the Lease Manager (`src/src/session-tracker.ts`, class `SessionTracker`):
  a persistent ticket table with an admission cap and TTL sweeping;
* the code-fence extraction function (`extractCode` in `src/src/App.tsx`),
  including a faithful model of the JavaScript regular-expression match it
  performs;
* the Session Coordinator (`src/unnamed/part_000`, class `Sandbox`):
  persisted session state, the hello/start protocol handlers, the
  generation and restore workflows, connection supersession, teardown and
  the forced-stop handler.

Stateful code is modelled by explicit state passing; every externally
visible action (persisting state, sending a message, calling a collaborator,
writing a file, releasing a lease, ...) is recorded as an effect in an
ordered effect list, so that ordering claims can be stated and proved.
External collaborators (the execution environment, the object store, the
generation service) are modelled as oracles supplying each call's result.
-/

/- ───────────────────────── Lease Manager ───────────────────────── -/

/-- Lease TTL in milliseconds (`LEASE_TTL_MS` in session-tracker.ts). -/
def LEASE_TTL_MS : Nat := 2 * 60 * 1000

/-- Admission cap (`MAX_CONCURRENT` in session-tracker.ts). -/
def MAX_CONCURRENT : Nat := 20

/-- One row of the `leases` table: `(lease_id, expires_at)`.  `lease_id` is
the primary key; `INSERT OR REPLACE` is modelled accordingly in `acquireT`. -/
abbrev LeaseRow := String × Nat

/-- The `leases` table. -/
abbrev LeaseTable := List LeaseRow

/-- `DELETE FROM leases WHERE expires_at < now` (`SessionTracker.evictExpired`). -/
def evictExpired (now : Nat) (t : LeaseTable) : LeaseTable :=
  t.filter (fun r => ! decide (r.2 < now))

/-- `SessionTracker.acquire`: evict expired rows, count, return `null` at the
cap, otherwise `INSERT OR REPLACE` a row expiring at `now + TTL`.  Returns the
granted lease (if any) and the table afterwards. -/
def acquireT (now : Nat) (id : String) (t : LeaseTable) :
    Option (String × Nat) × LeaseTable :=
  let t1 := evictExpired now t
  if MAX_CONCURRENT ≤ t1.length then (none, t1)
  else
    let exp := now + LEASE_TTL_MS
    (some (id, exp), t1.filter (fun r => ! decide (r.1 = id)) ++ [(id, exp)])

/-- `SessionTracker.release`: `DELETE FROM leases WHERE lease_id = id`. -/
def releaseT (id : String) (t : LeaseTable) : LeaseTable :=
  t.filter (fun r => ! decide (r.1 = id))

/-- `SessionTracker.renew`: `UPDATE leases SET expires_at = now + TTL WHERE
lease_id = id RETURNING lease_id`; returns `none` when no row matched. -/
def renewT (now : Nat) (id : String) (t : LeaseTable) :
    Option Nat × LeaseTable :=
  if t.any (fun r => decide (r.1 = id)) then
    (some (now + LEASE_TTL_MS),
     t.map (fun r => if r.1 = id then (r.1, now + LEASE_TTL_MS) else r))
  else (none, t)

/-- `SessionTracker.getActive`: evict expired rows, then count. -/
def getActiveT (now : Nat) (t : LeaseTable) : Nat × LeaseTable :=
  let t1 := evictExpired now t
  (t1.length, t1)

/-- `SessionTracker.alarm`: evict expired rows (re-arming the alarm has no
table effect). -/
def alarmT (now : Nat) (t : LeaseTable) : LeaseTable :=
  evictExpired now t

/-- One Lease Manager operation, carrying the `Date.now()` value at which it
runs. -/
inductive LOp
  | acquire (now : Nat) (id : String)
  | release (id : String)
  | renew (now : Nat) (id : String)
  | getActive (now : Nat)
  | alarm (now : Nat)
deriving Repr

/-- Effect of one operation on the ticket table. -/
def applyLOp : LOp → LeaseTable → LeaseTable
  | .acquire now id, t => (acquireT now id t).2
  | .release id, t => releaseT id t
  | .renew now id, t => (renewT now id t).2
  | .getActive now, t => (getActiveT now t).2
  | .alarm now, t => alarmT now t

/-- The table after a sequence of operations starting from the empty table. -/
def runLOps (ops : List LOp) : LeaseTable :=
  ops.foldl (fun t op => applyLOp op t) []

lemma evictExpired_length_le (now : Nat) (t : LeaseTable) :
    (evictExpired now t).length ≤ t.length :=
  List.length_filter_le _ _

lemma applyLOp_length (op : LOp) (t : LeaseTable)
    (h : t.length ≤ MAX_CONCURRENT) :
    (applyLOp op t).length ≤ MAX_CONCURRENT := by
  cases op with
  | acquire now id =>
    simp only [applyLOp, acquireT]
    by_cases hc : MAX_CONCURRENT ≤ (evictExpired now t).length
    · simpa [hc] using le_trans (evictExpired_length_le now t) h
    · have h1 : (evictExpired now t).length < MAX_CONCURRENT := not_le.mp hc
      have h2 : ((evictExpired now t).filter
          (fun r => ! decide (r.1 = id))).length ≤ (evictExpired now t).length :=
        List.length_filter_le _ _
      simp only [hc, if_false, List.length_append, List.length_singleton]
      omega
  | release id =>
    exact le_trans (List.length_filter_le _ _) h
  | renew now id =>
    simp only [applyLOp, renewT]
    by_cases hc : t.any (fun r => decide (r.1 = id))
    · simpa [hc] using h
    · simpa [hc] using h
  | getActive now =>
    exact le_trans (evictExpired_length_le now t) h
  | alarm now =>
    exact le_trans (evictExpired_length_le now t) h

lemma runLOps_aux_length (ops : List LOp) :
    ∀ t : LeaseTable, t.length ≤ MAX_CONCURRENT →
      (ops.foldl (fun t op => applyLOp op t) t).length ≤ MAX_CONCURRENT := by
  induction ops with
  | nil => intro t h; simpa using h
  | cons op ops ih =>
    intro t h
    exact ih _ (applyLOp_length op t h)

lemma runLOps_length (ops : List LOp) :
    (runLOps ops).length ≤ MAX_CONCURRENT :=
  runLOps_aux_length ops [] (by simp)

/-- C1: starting from the empty table, the count of non-expired lease rows
(indeed the count of all rows) never exceeds the cap of 20 after any sequence
of acquire/renew/release/getActive/alarm operations; moreover, in the concrete
scenario, 20 acquires of distinct leaseIds at time 0 all succeed and fill the
table, a 21st acquire of a fresh leaseId returns the "no capacity" result
`none`, and the 21st acquire succeeds after one release, or after the alarm
sweep evicts the (by then expired) rows. -/
theorem lease_cap_invariant_and_scenario :
    (∀ (ops : List LOp) (now : Nat),
      ((runLOps ops).filter (fun r => ! decide (r.2 < now))).length
        ≤ MAX_CONCURRENT)
    ∧ ((runLOps ((List.range 20).map
          (fun i => LOp.acquire 0 ("s" ++ toString i)))).length = 20
      ∧ (acquireT 0 "fresh" (runLOps ((List.range 20).map
          (fun i => LOp.acquire 0 ("s" ++ toString i))))).1 = none
      ∧ (acquireT 0 "fresh" (releaseT "s0" (runLOps ((List.range 20).map
          (fun i => LOp.acquire 0 ("s" ++ toString i)))))).1
          = some ("fresh", LEASE_TTL_MS)
      ∧ (acquireT 120001 "fresh" (alarmT 120001 (runLOps ((List.range 20).map
          (fun i => LOp.acquire 0 ("s" ++ toString i)))))).1
          = some ("fresh", 120001 + LEASE_TTL_MS)) := by
  constructor
  · intro ops now
    exact le_trans (List.length_filter_le _ _) (runLOps_length ops)
  · refine ⟨by decide, by decide, by decide, by decide⟩

/-- C7 counterexample: `renew` does not strictly increase a row's
`expires_at` "regardless of its previous value".  If the row's expiry already
equals `now + TTL` — e.g. the lease was acquired or renewed within the same
millisecond — renewing leaves the expiry unchanged, and an expiry above
`now + TTL` would even decrease.  Concretely, at `now = 0` renewing the row
`("a", LEASE_TTL_MS)` keeps `expires_at = LEASE_TTL_MS`, which is not a
strict increase. -/
theorem renew_not_strictly_increasing :
    ¬ (∀ (now : Nat) (id : String) (t : LeaseTable) (r : LeaseRow),
        r ∈ t → r.1 = id →
        ∀ r' ∈ (renewT now id t).2, r'.1 = id → r.2 < r'.2) := by
  intro h
  have hmem : (("a", LEASE_TTL_MS) : LeaseRow)
      ∈ (renewT 0 "a" [("a", LEASE_TTL_MS)]).2 := by decide
  have := h 0 "a" [("a", LEASE_TTL_MS)] ("a", LEASE_TTL_MS)
      (by simp) rfl ("a", LEASE_TTL_MS) hmem rfl
  exact absurd this (by decide)

/-- C7 (amended): `renew(leaseId)` returns "not found" exactly when no row
with that leaseId exists; when a matching row exists (including one whose
expiry has already passed but has not been swept), it unconditionally sets
that row's `expires_at` to `now + TTL` and returns the new expiry.  The new
expiry strictly exceeds the row's previous value whenever the previous value
was below `now + TTL` (in particular whenever time has advanced since the row
was last written); it is not a strict increase in general. -/
theorem renew_unconditional_update :
    ∀ (now : Nat) (id : String) (t : LeaseTable),
      ((renewT now id t).1 = none ↔ ∀ r ∈ t, r.1 ≠ id)
      ∧ (∀ r ∈ t, r.1 = id →
          (renewT now id t).1 = some (now + LEASE_TTL_MS)
          ∧ (∀ r' ∈ (renewT now id t).2, r'.1 = id →
              r'.2 = now + LEASE_TTL_MS)
          ∧ (r.2 < now + LEASE_TTL_MS →
              ∀ r' ∈ (renewT now id t).2, r'.1 = id → r.2 < r'.2)) := by
  intro now id t
  constructor
  · constructor
    · intro h r hr hid
      simp only [renewT] at h
      by_cases hc : t.any (fun r => decide (r.1 = id))
      · simp [hc] at h
      · rw [List.any_eq_true] at hc
        exact hc ⟨r, hr, by simp [hid]⟩
    · intro h
      have hc : t.any (fun r => decide (r.1 = id)) = false := by
        rw [List.any_eq_false]
        intro r hr
        simp [h r hr]
      simp [renewT, hc]
  · intro r hr hid
    have hc : t.any (fun r => decide (r.1 = id)) = true := by
      rw [List.any_eq_true]
      exact ⟨r, hr, by simp [hid]⟩
    have hall : ∀ r' ∈ (renewT now id t).2, r'.1 = id →
        r'.2 = now + LEASE_TTL_MS := by
      intro r' hr' hid'
      simp only [renewT, hc, if_true] at hr'
      rw [List.mem_map] at hr'
      obtain ⟨r0, _, heq⟩ := hr'
      subst heq
      by_cases h0 : r0.1 = id
      · simp [h0]
      · rw [if_neg h0] at hid'
        exact absurd hid' h0
    refine ⟨by simp [renewT, hc], hall, ?_⟩
    intro hlt r' hr' hid'
    have := hall r' hr' hid'
    omega

/-- Witness for `renew_unconditional_update`: renewing the expired-but-unswept
row `("a", 5)` at `now = 10` succeeds and returns `10 + TTL`. -/
theorem renew_unconditional_update_witness :
    (("a", 5) : LeaseRow) ∈ ([("a", 5)] : LeaseTable)
    ∧ (renewT 10 "a" [("a", 5)]).1 = some (10 + LEASE_TTL_MS) := by
  refine ⟨by simp, ?_⟩
  exact ((renew_unconditional_update 10 "a" [("a", 5)]).2 ("a", 5)
    (by simp) rfl).1

lemma keys_filter_nodup (t : LeaseTable) (p : LeaseRow → Bool)
    (h : (t.map Prod.fst).Nodup) : ((t.filter p).map Prod.fst).Nodup :=
  h.sublist (List.Sublist.map _ (List.filter_sublist t))

lemma applyLOp_keys_nodup (op : LOp) (t : LeaseTable)
    (h : (t.map Prod.fst).Nodup) :
    ((applyLOp op t).map Prod.fst).Nodup := by
  cases op with
  | acquire now id =>
    simp only [applyLOp, acquireT]
    by_cases hc : MAX_CONCURRENT ≤ (evictExpired now t).length
    · simpa [hc] using keys_filter_nodup t _ h
    · have h1 : (((evictExpired now t).filter
          (fun r => ! decide (r.1 = id))).map Prod.fst).Nodup :=
        keys_filter_nodup _ _ (keys_filter_nodup t _ h)
      have h2 : id ∉ ((evictExpired now t).filter
          (fun r => ! decide (r.1 = id))).map Prod.fst := by
        intro hmem
        rw [List.mem_map] at hmem
        obtain ⟨r, hr, hfst⟩ := hmem
        rw [List.mem_filter] at hr
        have := hr.2
        simp [hfst] at this
      simp only [hc, if_false, List.map_append]
      rw [List.nodup_append]
      refine ⟨h1, List.nodup_singleton id, ?_⟩
      intro a ha hb
      simp only [List.map_cons, List.map_nil, List.mem_singleton] at hb
      subst hb
      exact h2 ha
  | release id => exact keys_filter_nodup t _ h
  | renew now id =>
    simp only [applyLOp, renewT]
    by_cases hc : t.any (fun r => decide (r.1 = id))
    · have hkeys : (t.map (fun r : LeaseRow =>
          if r.1 = id then (r.1, now + LEASE_TTL_MS) else r)).map Prod.fst
          = t.map Prod.fst := by
        rw [List.map_map]
        apply List.map_congr_left
        intro r _
        by_cases h0 : r.1 = id <;> simp [h0]
      simpa [hc, hkeys] using h
    · simpa [hc] using h
  | getActive now => exact keys_filter_nodup t _ h
  | alarm now => exact keys_filter_nodup t _ h

lemma runLOps_aux_keys_nodup (ops : List LOp) :
    ∀ t : LeaseTable, (t.map Prod.fst).Nodup →
      ((ops.foldl (fun t op => applyLOp op t) t).map Prod.fst).Nodup := by
  induction ops with
  | nil => intro t h; simpa using h
  | cons op ops ih =>
    intro t h
    exact ih _ (applyLOp_keys_nodup op t h)

lemma filter_ne_key_length (id : String) :
    ∀ t : LeaseTable, (t.map Prod.fst).Nodup → id ∈ t.map Prod.fst →
      (t.filter (fun r => ! decide (r.1 = id))).length + 1 = t.length := by
  intro t
  induction t with
  | nil => intro _ h; simp at h
  | cons r rest ih =>
    intro hnodup hmem
    rw [List.map_cons, List.nodup_cons] at hnodup
    by_cases h0 : r.1 = id
    · have hrest : rest.filter (fun r => ! decide (r.1 = id)) = rest := by
        apply List.filter_eq_self.mpr
        intro a ha
        simp only [Bool.not_eq_true']
        rw [decide_eq_false_iff_not]
        intro haid
        exact hnodup.1 (by
          rw [h0, ← haid]
          exact List.mem_map_of_mem Prod.fst ha)
      have hdrop : (! decide (r.1 = id)) = false := by simp [h0]
      simp [List.filter_cons, hdrop, hrest]
    · have hmem' : id ∈ rest.map Prod.fst := by
        rcases List.mem_cons.mp hmem with h | h
        · exact absurd h.symm h0
        · exact h
      have hrec := ih hnodup.2 hmem'
      have hkeep : (! decide (r.1 = id)) = true := by simp [h0]
      simp only [List.filter_cons, hkeep, if_true, List.length_cons]
      omega

/-- C10: because `lease_id` is the primary key and `acquire` inserts with
`INSERT OR REPLACE`, every table reachable from the empty table has at most
one row per leaseId (its keys are nodup); and re-acquiring a leaseId that is
already present (with no row expired at `now`, and the table strictly below
the cap) succeeds by replacing the existing row with a fresh expiry, leaving
the total row count unchanged. -/
theorem acquire_replaces_held_lease :
    (∀ ops : List LOp, ((runLOps ops).map Prod.fst).Nodup)
    ∧ (∀ (now : Nat) (id : String) (t : LeaseTable),
        (t.map Prod.fst).Nodup →
        (∀ r ∈ t, ¬ r.2 < now) →
        id ∈ t.map Prod.fst →
        t.length < MAX_CONCURRENT →
        (acquireT now id t).1 = some (id, now + LEASE_TTL_MS)
        ∧ (acquireT now id t).2.length = t.length) := by
  constructor
  · intro ops
    exact runLOps_aux_keys_nodup ops [] (by simp)
  · intro now id t hnodup hfresh hmem hlen
    have hevict : evictExpired now t = t := by
      apply List.filter_eq_self.mpr
      intro r hr
      simp [hfresh r hr]
    have hc : ¬ MAX_CONCURRENT ≤ t.length := by omega
    constructor
    · simp [acquireT, hevict, hc]
    · have hflt := filter_ne_key_length id t hnodup hmem
      simp only [acquireT, hevict, hc, if_false, List.length_append,
        List.length_singleton]
      omega

/-- Witness for `acquire_replaces_held_lease`: re-acquiring the held lease
`"a"` in the one-row table `[("a", 100)]` at `now = 50` succeeds and keeps the
row count at 1. -/
theorem acquire_replaces_held_lease_witness :
    (acquireT 50 "a" [("a", 100)]).1 = some ("a", 50 + LEASE_TTL_MS)
    ∧ (acquireT 50 "a" [("a", 100)]).2.length = 1 := by
  have := acquire_replaces_held_lease.2 50 "a" [("a", 100)]
    (by simp) (by simp) (by simp) (by decide)
  exact ⟨this.1, this.2⟩

/- ───────────────────── extractCode (App.tsx) ───────────────────── -/

/-- JavaScript's whitespace class \s, by code point: tab, line feed, vertical
tab, form feed, carriage return, space, NBSP, Ogham space mark, the
U+2000..U+200A range, line/paragraph separators, narrow NBSP, medium
mathematical space, ideographic space and BOM. -/
def isJsWs (c : Char) : Bool :=
  let n := c.toNat
  n == 9 || n == 10 || n == 11 || n == 12 || n == 13 || n == 32 ||
  n == 0xa0 || n == 0x1680 ||
  (decide (0x2000 ≤ n) && decide (n ≤ 0x200a)) ||
  n == 0x2028 || n == 0x2029 || n == 0x202f || n == 0x205f ||
  n == 0x3000 || n == 0xfeff

/-- JavaScript String.prototype.trim on a character list. -/
def trimList (cs : List Char) : List Char :=
  ((cs.dropWhile isJsWs).reverse.dropWhile isJsWs).reverse

/-- JavaScript String.prototype.trim. -/
def jsTrim (s : String) : String := String.mk (trimList s.data)

/-- Three consecutive backticks — the fence delimiter of the regex. -/
def fenceChars : List Char := [ '`', '`', '`' ]

/-- The alternatives of the optional language group (?:tsx?|jsx?)? of the
regex, in the backtracking order a JavaScript engine tries them. -/
def langOptions : List (List Char) :=
  [['t', 's', 'x'], ['t', 's'], ['j', 's', 'x'], ['j', 's'], []]

/-- Capture of the lazy group ([\s\S]*?) followed by the closing fence: the
characters before the first occurrence of three consecutive backticks, or
`none` when no closing fence exists. -/
def splitAtFence : List Char → Option (List Char)
  | [] => none
  | c :: rest =>
    if fenceChars.isPrefixOf (c :: rest) then some []
    else (splitAtFence rest).map (fun l => c :: l)

/-- Greedy \s*\n with backtracking: consume the longest whitespace prefix
whose last consumed character is a newline.  (Which newline is chosen cannot
affect whether the rest of the regex matches, since the characters between two
candidate positions are whitespace and therefore contain no backtick.) -/
def consumeWsNl (cs : List Char) : Option (List Char) :=
  let run := cs.takeWhile isJsWs
  match run.reverse.findIdx? (fun c => c == '\n') with
  | none => none
  | some k => some (cs.drop (run.length - k))

/-- First successful alternative, in backtracking order. -/
def firstHit {α : Type} : List (Option α) → Option α
  | [] => none
  | some a :: _ => some a
  | none :: rest => firstHit rest

/-- Does the regex match starting exactly at this position?  Returns the
captured group: three backticks, an optional language tag, greedy \s*\n, then
the lazy capture up to the closing fence. -/
def matchFenceAt (cs : List Char) : Option (List Char) :=
  if fenceChars.isPrefixOf cs then
    let after := cs.drop 3
    firstHit ((langOptions.filter (fun l => l.isPrefixOf after)).map
      (fun l => (consumeWsNl (after.drop l.length)).bind splitAtFence))
  else none

/-- Leftmost-match scan, as JavaScript String.prototype.match performs for a
regex without the g flag. -/
def scanFence : List Char → Option (List Char)
  | [] => none
  | c :: rest =>
    match matchFenceAt (c :: rest) with
    | some cap => some cap
    | none => scanFence rest

/-- `extractCode` from App.tsx: `response.match(/\x60\x60\x60(?:tsx?|jsx?)?\s*\n([\s\S]*?)\x60\x60\x60/)`,
returning the trimmed capture on a match and the trimmed raw response
otherwise. -/
def extractCode (s : String) : String :=
  match scanFence s.data with
  | some cap => String.mk (trimList cap)
  | none => jsTrim s

lemma matchFenceAt_head (c : Char) (l : List Char) (h : c ≠ '`') :
    matchFenceAt (c :: l) = none := by
  have hpre : fenceChars.isPrefixOf (c :: l) = false := by
    simp only [fenceChars, List.isPrefixOf]
    simp [h.symm]
  simp [matchFenceAt, hpre]

lemma scanFence_cons_of_ne (c : Char) (l : List Char) (h : c ≠ '`') :
    scanFence (c :: l) = scanFence l := by
  have hm := matchFenceAt_head c l h
  simp [scanFence, hm]

lemma scanFence_append_of_no_backtick (a : List Char) (l : List Char)
    (ha : ∀ c ∈ a, c ≠ '`') : scanFence (a ++ l) = scanFence l := by
  induction a with
  | nil => simp
  | cons c rest ih =>
    have hc : c ≠ '`' := ha c (by simp)
    have hrest : ∀ x ∈ rest, x ≠ '`' := fun x hx => ha x (by simp [hx])
    rw [List.cons_append, scanFence_cons_of_ne c (rest ++ l) hc]
    exact ih hrest

/-- Does the character list contain three consecutive backticks? -/
def containsFence : List Char → Bool
  | [] => false
  | c :: rest => fenceChars.isPrefixOf (c :: rest) || containsFence rest

lemma isPrefixOf_take_len : ∀ (p l : List Char),
    p.isPrefixOf l = p.isPrefixOf (l.take p.length) := by
  intro p
  induction p with
  | nil => intro l; cases l <;> rfl
  | cons x p ih =>
    intro l
    cases l with
    | nil => rfl
    | cons c l' =>
      show (x == c && p.isPrefixOf l') = (x == c && p.isPrefixOf (l'.take p.length))
      rw [ih l']

lemma take2_append_fence (rest b : List Char) :
    (rest ++ ('`' :: '`' :: '`' :: b)).take 2 = (rest ++ ['`', '`']).take 2 := by
  cases rest with
  | nil => rfl
  | cons r1 rs =>
    cases rs with
    | nil => rfl
    | cons r2 rs2 => rfl

lemma splitAtFence_first (b : List Char) :
    ∀ body : List Char, containsFence (body ++ ['`', '`']) = false →
      splitAtFence (body ++ ('`' :: '`' :: '`' :: b)) = some body := by
  intro body
  induction body with
  | nil =>
    intro _
    show splitAtFence ('`' :: ('`' :: '`' :: b)) = some []
    rw [splitAtFence]
    simp [show fenceChars.isPrefixOf ('`' :: '`' :: '`' :: b) = true from by
      simp [fenceChars, List.isPrefixOf]]
  | cons c rest ih =>
    intro h
    have hh : containsFence (c :: (rest ++ ['`', '`'])) = false := h
    rw [containsFence] at hh
    have h12 := Bool.or_eq_false_iff.mp hh
    have heq : fenceChars.isPrefixOf (c :: (rest ++ ('`' :: '`' :: '`' :: b)))
        = fenceChars.isPrefixOf (c :: (rest ++ ['`', '`'])) := by
      rw [isPrefixOf_take_len fenceChars (c :: (rest ++ ('`' :: '`' :: '`' :: b))),
        isPrefixOf_take_len fenceChars (c :: (rest ++ ['`', '`']))]
      show fenceChars.isPrefixOf (c :: (rest ++ ('`' :: '`' :: '`' :: b)).take 2)
        = fenceChars.isPrefixOf (c :: (rest ++ ['`', '`']).take 2)
      rw [take2_append_fence]
    have hpre : fenceChars.isPrefixOf
        (c :: (rest ++ ('`' :: '`' :: '`' :: b))) = false := by
      rw [heq]; exact h12.1
    show splitAtFence (c :: (rest ++ ('`' :: '`' :: '`' :: b))) = some (c :: rest)
    rw [splitAtFence, if_neg (by rw [hpre]; exact Bool.false_ne_true), ih h12.2]
    rfl

lemma containsFence_drop (x : List Char) :
    ∀ (d : Nat) (l : List Char), containsFence (l ++ x) = false →
      containsFence (l.drop d ++ x) = false := by
  intro d
  induction d with
  | zero => intro l h; exact h
  | succ n ih =>
    intro l h
    cases l with
    | nil => exact h
    | cons c rest =>
      show containsFence (rest.drop n ++ x) = false
      apply ih
      have hh : containsFence (c :: (rest ++ x)) = false := h
      rw [containsFence] at hh
      exact (Bool.or_eq_false_iff.mp hh).2

lemma scanFence_none_of_noFence : ∀ l : List Char,
    containsFence l = false → scanFence l = none := by
  intro l
  induction l with
  | nil => intro _; rfl
  | cons c rest ih =>
    intro h
    rw [containsFence] at h
    have h12 := Bool.or_eq_false_iff.mp h
    rw [scanFence,
      show matchFenceAt (c :: rest) = none from by
        rw [matchFenceAt, if_neg (by rw [h12.1]; exact Bool.false_ne_true)]]
    exact ih h12.2

lemma findIdxQ_cons (p : Char → Bool) (a : Char) (l : List Char) :
    (a :: l).findIdx? p
      = if p a = true then some 0 else (l.findIdx? p).map (fun k => k + 1) := by
  rw [List.findIdx?_cons, List.findIdx?_succ]

lemma findIdxQ_some_lt (p : Char → Bool) :
    ∀ (l : List Char) (j : Nat), l.findIdx? p = some j → j < l.length := by
  intro l
  induction l with
  | nil => intro j h; exact Option.noConfusion h
  | cons a l ih =>
    intro j h
    rw [findIdxQ_cons] at h
    cases hpa : p a with
    | true =>
      rw [if_pos hpa] at h
      cases h
      simp
    | false =>
      rw [if_neg (by rw [hpa]; exact Bool.false_ne_true)] at h
      cases hm : l.findIdx? p with
      | none => rw [hm] at h; exact Option.noConfusion h
      | some k =>
        rw [hm] at h
        have hk := ih k hm
        have hkj : k + 1 = j := by
          have := Option.some.inj h
          exact this
        simp [List.length_cons]
        omega

lemma findIdxQ_append_some (p : Char → Bool) :
    ∀ (l1 l2 : List Char) (j : Nat), l1.findIdx? p = some j →
      (l1 ++ l2).findIdx? p = some j := by
  intro l1
  induction l1 with
  | nil => intro l2 j h; exact Option.noConfusion h
  | cons a l1 ih =>
    intro l2 j h
    rw [findIdxQ_cons] at h
    show (a :: (l1 ++ l2)).findIdx? p = some j
    rw [findIdxQ_cons]
    by_cases hpa : p a = true
    · rw [if_pos hpa] at h ⊢
      exact h
    · rw [if_neg hpa] at h ⊢
      cases hm : l1.findIdx? p with
      | none => rw [hm] at h; exact Option.noConfusion h
      | some k =>
        rw [hm] at h
        rw [ih l2 k hm]
        exact h

lemma findIdxQ_append_none (p : Char → Bool) :
    ∀ (l1 l2 : List Char), l1.findIdx? p = none →
      (l1 ++ l2).findIdx? p = (l2.findIdx? p).map (fun k => k + l1.length) := by
  intro l1
  induction l1 with
  | nil =>
    intro l2 _
    show l2.findIdx? p = (l2.findIdx? p).map (fun k => k + ([] : List Char).length)
    cases h2 : l2.findIdx? p <;> simp
  | cons a l1 ih =>
    intro l2 h
    rw [findIdxQ_cons] at h
    cases hpa : p a with
    | true =>
      rw [if_pos hpa] at h
      exact Option.noConfusion h
    | false =>
      have hne : ¬ (p a = true) := by rw [hpa]; exact Bool.false_ne_true
      rw [if_neg hne] at h
      have h1 : l1.findIdx? p = none := by
        cases hm : l1.findIdx? p with
        | none => rfl
        | some k => rw [hm] at h; exact absurd h (by simp)
      show (a :: (l1 ++ l2)).findIdx? p
        = (l2.findIdx? p).map (fun k => k + (a :: l1).length)
      rw [findIdxQ_cons, if_neg hne, ih l2 h1]
      cases h2 : l2.findIdx? p <;> simp [List.length_cons, Nat.add_assoc]

lemma takeWhile_all_append (p : Char → Bool) :
    ∀ (w l : List Char), (∀ c ∈ w, p c = true) →
      (w ++ l).takeWhile p = w ++ l.takeWhile p := by
  intro w
  induction w with
  | nil => intro l _; rfl
  | cons a w ih =>
    intro l hw
    have ha : p a = true := hw a (by simp)
    rw [List.cons_append, List.takeWhile_cons, ha, if_pos rfl,
      ih l (fun c hc => hw c (by simp [hc]))]
    rfl

lemma takeWhile_append_stop (p : Char → Bool) (c : Char) (hc : p c = false) :
    ∀ (l1 l2 : List Char), (l1 ++ c :: l2).takeWhile p = l1.takeWhile p := by
  intro l1
  induction l1 with
  | nil =>
    intro l2
    show (c :: l2).takeWhile p = []
    rw [List.takeWhile_cons, hc]
    rfl
  | cons a l1 ih =>
    intro l2
    rw [List.cons_append, List.takeWhile_cons, List.takeWhile_cons]
    cases hpa : p a with
    | false => rfl
    | true => rw [if_pos rfl, if_pos rfl, ih l2]

lemma drop_append_len : ∀ (w l : List Char) (n : Nat),
    (w ++ l).drop (w.length + n) = l.drop n := by
  intro w
  induction w with
  | nil => intro l n; simp
  | cons a w ih =>
    intro l n
    have e : (a :: w).length + n = (w.length + n) + 1 := by
      simp [List.length_cons]
      omega
    rw [List.cons_append, e]
    show (w ++ l).drop (w.length + n) = l.drop n
    exact ih l n

lemma take_all_of_le_takeWhile (p : Char → Bool) :
    ∀ (l : List Char) (d : Nat), d ≤ (l.takeWhile p).length →
      ∀ c ∈ l.take d, p c = true := by
  intro l
  induction l with
  | nil => intro d _ c hc; simp at hc
  | cons a l ih =>
    intro d hd c hc
    cases d with
    | zero => simp at hc
    | succ d' =>
      rw [List.takeWhile_cons] at hd
      cases hpa : p a with
      | false => rw [hpa] at hd; simp at hd
      | true =>
        rw [hpa, if_pos rfl] at hd
        simp only [List.length_cons] at hd
        have hd' : d' ≤ (l.takeWhile p).length := by omega
        rw [List.take_succ_cons] at hc
        rcases List.mem_cons.mp hc with rfl | hc'
        · exact hpa
        · exact ih d' hd' c hc'

lemma dropWhile_drop_of_all (p : Char → Bool) :
    ∀ (l : List Char) (d : Nat), (∀ c ∈ l.take d, p c = true) →
      (l.drop d).dropWhile p = l.dropWhile p := by
  intro l
  induction l with
  | nil => intro d _; simp
  | cons a l ih =>
    intro d h
    cases d with
    | zero => rfl
    | succ d' =>
      have ha : p a = true := h a (by rw [List.take_succ_cons]; simp)
      show (l.drop d').dropWhile p = (a :: l).dropWhile p
      rw [List.dropWhile_cons, ha, if_pos rfl]
      exact ih d' (fun c hc => h c (by rw [List.take_succ_cons]; simp [hc]))

lemma trimList_drop_ws (body : List Char) (d : Nat)
    (h : ∀ c ∈ body.take d, isJsWs c = true) :
    trimList (body.drop d) = trimList body := by
  show (((body.drop d).dropWhile isJsWs).reverse.dropWhile isJsWs).reverse
    = ((body.dropWhile isJsWs).reverse.dropWhile isJsWs).reverse
  rw [dropWhile_drop_of_all isJsWs body d h]

lemma tagNotPre (t : Char) (ts ws r : List Char)
    (hws : ∀ c ∈ ws, isJsWs c = true) (ht : isJsWs t = false) (htn : t ≠ '\n') :
    (t :: ts).isPrefixOf (ws ++ '\n' :: r) = false := by
  cases ws with
  | nil =>
    show ((t == '\n') && ts.isPrefixOf r) = false
    rw [beq_eq_false_iff_ne.mpr htn]
    rfl
  | cons a ws' =>
    have ha : isJsWs a = true := hws a (by simp)
    have hta : (t == a) = false := by
      apply beq_eq_false_iff_ne.mpr
      intro hEq
      rw [hEq, ha] at ht
      exact absurd ht (by simp)
    show ((t == a) && ts.isPrefixOf (ws' ++ '\n' :: r)) = false
    rw [hta]
    rfl

lemma firstHit_map_head {α β : Type} (f : α → Option β) (a : α)
    (rest : List α) (v : β) (h : f a = some v) :
    firstHit ((a :: rest).map f) = some v := by
  show firstHit (f a :: rest.map f) = some v
  rw [h]
  rfl

lemma consumeWsNl_ws (ws t : List Char) (hws : ∀ c ∈ ws, isJsWs c = true) :
    ∃ d, d ≤ (t.takeWhile isJsWs).length
      ∧ consumeWsNl (ws ++ '\n' :: t) = some (t.drop d) := by
  have hnl : isJsWs '\n' = true := by decide
  have hrun : (ws ++ '\n' :: t).takeWhile isJsWs
      = ws ++ '\n' :: t.takeWhile isJsWs := by
    rw [takeWhile_all_append isJsWs ws ('\n' :: t) hws, List.takeWhile_cons,
      hnl, if_pos rfl]
  have hrev : (ws ++ '\n' :: t.takeWhile isJsWs).reverse
      = (t.takeWhile isJsWs).reverse ++ '\n' :: ws.reverse := by
    simp
  have hlen : (ws ++ '\n' :: t.takeWhile isJsWs).length
      = ws.length + 1 + (t.takeWhile isJsWs).length := by
    simp [List.length_append, List.length_cons]
    omega
  have hwlen : (ws ++ ['\n']).length = ws.length + 1 := by simp
  have hassoc : ws ++ '\n' :: t = (ws ++ ['\n']) ++ t := by simp
  cases hk : ((t.takeWhile isJsWs).reverse.findIdx? (fun c => c == '\n')) with
  | some j =>
    have hj : j < (t.takeWhile isJsWs).length := by
      have := findIdxQ_some_lt (fun c => c == '\n')
        (t.takeWhile isJsWs).reverse j hk
      simpa using this
    refine ⟨(t.takeWhile isJsWs).length - j, by omega, ?_⟩
    rw [consumeWsNl]
    simp only [hrun, hrev]
    have hfind : ((t.takeWhile isJsWs).reverse ++ '\n' :: ws.reverse).findIdx?
        (fun c => c == '\n') = some j :=
      findIdxQ_append_some (fun c => c == '\n') _ ('\n' :: ws.reverse) j hk
    simp only [hfind]
    show some ((ws ++ '\n' :: t).drop
        ((ws ++ '\n' :: t.takeWhile isJsWs).length - j))
      = some (t.drop ((t.takeWhile isJsWs).length - j))
    have harith : (ws ++ '\n' :: t.takeWhile isJsWs).length - j
        = (ws ++ ['\n']).length + ((t.takeWhile isJsWs).length - j) := by
      rw [hlen, hwlen]
      omega
    rw [harith, hassoc, drop_append_len]
  | none =>
    refine ⟨0, Nat.zero_le _, ?_⟩
    rw [consumeWsNl]
    simp only [hrun, hrev]
    have hfind : ((t.takeWhile isJsWs).reverse ++ '\n' :: ws.reverse).findIdx?
        (fun c => c == '\n') = some (t.takeWhile isJsWs).length := by
      rw [findIdxQ_append_none (fun c => c == '\n') _ ('\n' :: ws.reverse) hk,
        findIdxQ_cons, if_pos (by decide)]
      simp
    simp only [hfind]
    show some ((ws ++ '\n' :: t).drop
        ((ws ++ '\n' :: t.takeWhile isJsWs).length - (t.takeWhile isJsWs).length))
      = some (t.drop 0)
    have harith : (ws ++ '\n' :: t.takeWhile isJsWs).length
        - (t.takeWhile isJsWs).length = (ws ++ ['\n']).length + 0 := by
      rw [hlen, hwlen]
      omega
    rw [harith, hassoc, drop_append_len]

lemma matchFenceAt_tagged (lang ws body b : List Char)
    (hlang : lang ∈ langOptions)
    (hws : ∀ c ∈ ws, isJsWs c = true)
    (hnf : containsFence (body ++ ['`', '`']) = false) :
    ∃ d, (∀ c ∈ body.take d, isJsWs c = true)
      ∧ matchFenceAt ('`' :: '`' :: '`'
          :: (lang ++ (ws ++ '\n' :: (body ++ ('`' :: '`' :: '`' :: b)))))
        = some (body.drop d) := by
  obtain ⟨d, hdle, hcons⟩ :=
    consumeWsNl_ws ws (body ++ ('`' :: '`' :: '`' :: b)) hws
  have hbq : isJsWs '`' = false := by decide
  have htw : (body ++ ('`' :: '`' :: '`' :: b)).takeWhile isJsWs
      = body.takeWhile isJsWs :=
    takeWhile_append_stop isJsWs '`' hbq body ('`' :: '`' :: b)
  rw [htw] at hdle
  have hdb : d ≤ body.length := by
    have h3 : body.takeWhile isJsWs ++ body.dropWhile isJsWs = body :=
      List.takeWhile_append_dropWhile isJsWs body
    have h4 := congrArg List.length h3
    simp only [List.length_append] at h4
    omega
  have hdrop : (body ++ ('`' :: '`' :: '`' :: b)).drop d
      = body.drop d ++ ('`' :: '`' :: '`' :: b) :=
    List.drop_append_of_le_length hdb
  have htake : ∀ c ∈ body.take d, isJsWs c = true :=
    take_all_of_le_takeWhile isJsWs body d hdle
  have hnf2 : containsFence (body.drop d ++ ['`', '`']) = false :=
    containsFence_drop ['`', '`'] d body hnf
  have hcore : (consumeWsNl (ws ++ '\n'
      :: (body ++ ('`' :: '`' :: '`' :: b)))).bind splitAtFence
      = some (body.drop d) := by
    rw [hcons, hdrop]
    show splitAtFence (body.drop d ++ ('`' :: '`' :: '`' :: b))
      = some (body.drop d)
    exact splitAtFence_first b (body.drop d) hnf2
  have hnp : ∀ (t2 : Char) (ts : List Char), isJsWs t2 = false → t2 ≠ '\n' →
      (t2 :: ts).isPrefixOf
        (ws ++ '\n' :: (body ++ ('`' :: '`' :: '`' :: b))) = false :=
    fun t2 ts h1 h2 =>
      tagNotPre t2 ts ws (body ++ ('`' :: '`' :: '`' :: b)) hws h1 h2
  have hjt : (('j' : Char) == 't') = false := by decide
  have htj : (('t' : Char) == 'j') = false := by decide
  have hx3 : (['x'] : List Char).isPrefixOf
      (ws ++ '\n' :: (body ++ ('`' :: '`' :: '`' :: b))) = false :=
    hnp 'x' [] (by decide) (by decide)
  refine ⟨d, htake, ?_⟩
  have hpre : fenceChars.isPrefixOf ('`' :: '`' :: '`'
      :: (lang ++ (ws ++ '\n' :: (body ++ ('`' :: '`' :: '`' :: b)))))
      = true := by
    simp [fenceChars, List.isPrefixOf]
  rw [matchFenceAt, if_pos hpre]
  have hmem := hlang
  simp only [langOptions, List.mem_cons, List.not_mem_nil, or_false] at hmem
  rcases hmem with rfl | rfl | rfl | rfl | rfl
  · show firstHit ((langOptions.filter (fun l => l.isPrefixOf
        ('t' :: 's' :: 'x' :: (ws ++ '\n'
          :: (body ++ ('`' :: '`' :: '`' :: b)))))).map
        (fun l => (consumeWsNl (('t' :: 's' :: 'x' :: (ws ++ '\n'
          :: (body ++ ('`' :: '`' :: '`' :: b)))).drop l.length)).bind
          splitAtFence))
      = some (body.drop d)
    rw [show langOptions.filter (fun l => l.isPrefixOf
        ('t' :: 's' :: 'x' :: (ws ++ '\n'
          :: (body ++ ('`' :: '`' :: '`' :: b)))))
        = [['t', 's', 'x'], ['t', 's'], []] from by
      simp [langOptions, List.filter_cons, List.isPrefixOf, hjt]]
    exact firstHit_map_head _ ['t', 's', 'x'] [['t', 's'], []]
      (body.drop d) hcore
  · show firstHit ((langOptions.filter (fun l => l.isPrefixOf
        ('t' :: 's' :: (ws ++ '\n'
          :: (body ++ ('`' :: '`' :: '`' :: b)))))).map
        (fun l => (consumeWsNl (('t' :: 's' :: (ws ++ '\n'
          :: (body ++ ('`' :: '`' :: '`' :: b)))).drop l.length)).bind
          splitAtFence))
      = some (body.drop d)
    rw [show langOptions.filter (fun l => l.isPrefixOf
        ('t' :: 's' :: (ws ++ '\n'
          :: (body ++ ('`' :: '`' :: '`' :: b)))))
        = [['t', 's'], []] from by
      simp [langOptions, List.filter_cons, List.isPrefixOf, hjt, hx3]]
    exact firstHit_map_head _ ['t', 's'] [[]] (body.drop d) hcore
  · show firstHit ((langOptions.filter (fun l => l.isPrefixOf
        ('j' :: 's' :: 'x' :: (ws ++ '\n'
          :: (body ++ ('`' :: '`' :: '`' :: b)))))).map
        (fun l => (consumeWsNl (('j' :: 's' :: 'x' :: (ws ++ '\n'
          :: (body ++ ('`' :: '`' :: '`' :: b)))).drop l.length)).bind
          splitAtFence))
      = some (body.drop d)
    rw [show langOptions.filter (fun l => l.isPrefixOf
        ('j' :: 's' :: 'x' :: (ws ++ '\n'
          :: (body ++ ('`' :: '`' :: '`' :: b)))))
        = [['j', 's', 'x'], ['j', 's'], []] from by
      simp [langOptions, List.filter_cons, List.isPrefixOf, htj]]
    exact firstHit_map_head _ ['j', 's', 'x'] [['j', 's'], []]
      (body.drop d) hcore
  · show firstHit ((langOptions.filter (fun l => l.isPrefixOf
        ('j' :: 's' :: (ws ++ '\n'
          :: (body ++ ('`' :: '`' :: '`' :: b)))))).map
        (fun l => (consumeWsNl (('j' :: 's' :: (ws ++ '\n'
          :: (body ++ ('`' :: '`' :: '`' :: b)))).drop l.length)).bind
          splitAtFence))
      = some (body.drop d)
    rw [show langOptions.filter (fun l => l.isPrefixOf
        ('j' :: 's' :: (ws ++ '\n'
          :: (body ++ ('`' :: '`' :: '`' :: b)))))
        = [['j', 's'], []] from by
      simp [langOptions, List.filter_cons, List.isPrefixOf, htj, hx3]]
    exact firstHit_map_head _ ['j', 's'] [[]] (body.drop d) hcore
  · show firstHit ((langOptions.filter (fun l => l.isPrefixOf
        (ws ++ '\n' :: (body ++ ('`' :: '`' :: '`' :: b))))).map
        (fun l => (consumeWsNl ((ws ++ '\n'
          :: (body ++ ('`' :: '`' :: '`' :: b))).drop l.length)).bind
          splitAtFence))
      = some (body.drop d)
    rw [show langOptions.filter (fun l => l.isPrefixOf
        (ws ++ '\n' :: (body ++ ('`' :: '`' :: '`' :: b))))
        = [[]] from by
      simp [langOptions, List.filter_cons, List.isPrefixOf,
        hnp 't' ['s', 'x'] (by decide) (by decide),
        hnp 't' ['s'] (by decide) (by decide),
        hnp 'j' ['s', 'x'] (by decide) (by decide),
        hnp 'j' ['s'] (by decide) (by decide)]]
    exact firstHit_map_head _ [] [] (body.drop d) hcore

lemma extractCode_eq_of_scan (s : String) (cap : List Char)
    (h : scanFence s.data = some cap) :
    extractCode s = String.mk (trimList cap) := by
  unfold extractCode
  rw [h]

lemma extractCode_eq_of_scan_none (s : String)
    (h : scanFence s.data = none) : extractCode s = jsTrim s := by
  unfold extractCode
  rw [h]

/-- C8 counterexample: a response with no code fence is not returned
"verbatim, unchanged" — extractCode trims surrounding whitespace, so the
fence-free response "  x  " comes back as "x". -/
theorem extractCode_not_verbatim :
    extractCode "  x  " ≠ "  x  " ∧ extractCode "  x  " = "x" := by
  constructor
  · decide
  · decide

/-- C8 (amended): when the response contains a fenced code block recognised by
the regex — three backticks, an optional tsx/ts/jsx/js tag, whitespace ending
in a newline, a lazily captured body, a closing fence — extractCode returns
the fence's contents with surrounding whitespace trimmed; otherwise it
returns the raw response with surrounding whitespace trimmed (not verbatim).
The no-fence case is proved for every response without three consecutive
backticks; the fenced case for every recognised language tag, every
whitespace run before the newline, and every body (including bodies with
leading whitespace or single backticks) that neither contains a fence nor
ends within two characters of one. -/
theorem extractCode_trims :
    (∀ s : String, containsFence s.data = false → extractCode s = jsTrim s)
    ∧ (∀ a lang ws body b : List Char,
        (∀ c ∈ a, c ≠ '`') →
        lang ∈ langOptions →
        (∀ c ∈ ws, isJsWs c = true) →
        containsFence (body ++ ['`', '`']) = false →
        extractCode (String.mk (a ++ ('`' :: '`' :: '`'
            :: (lang ++ (ws ++ '\n' :: (body ++ ('`' :: '`' :: '`' :: b)))))))
          = String.mk (trimList body)) := by
  constructor
  · intro s hs
    exact extractCode_eq_of_scan_none s (scanFence_none_of_noFence s.data hs)
  · intro a lang ws body b ha hlang hws hnf
    obtain ⟨d, hd, hmatch⟩ := matchFenceAt_tagged lang ws body b hlang hws hnf
    have hscan : scanFence (a ++ ('`' :: '`' :: '`'
        :: (lang ++ (ws ++ '\n' :: (body ++ ('`' :: '`' :: '`' :: b))))))
        = some (body.drop d) := by
      rw [scanFence_append_of_no_backtick a _ ha, scanFence, hmatch]
    rw [extractCode_eq_of_scan _ (body.drop d) hscan,
      trimList_drop_ws body d hd]

/-- Witness for `extractCode_trims`: a fence-free response with an inline
backtick is trimmed, and a tsx-tagged fence with whitespace before the
newline and a body with leading whitespace and an inline backtick extracts
to that body trimmed. -/
theorem extractCode_trims_witness :
    extractCode "  no fence ` here  " = jsTrim "  no fence ` here  "
    ∧ extractCode (String.mk
        (['x', ':', ' '] ++ ('`' :: '`' :: '`'
          :: (['t', 's', 'x'] ++ ([' '] ++ '\n'
            :: ([' ', 'h', '`', 'i', ' '] ++ ('`' :: '`' :: '`' :: ['!'])))))))
      = String.mk (trimList [' ', 'h', '`', 'i', ' ']) :=
  ⟨extractCode_trims.1 "  no fence ` here  " (by decide),
   extractCode_trims.2 ['x', ':', ' '] ['t', 's', 'x'] [' ']
     [' ', 'h', '`', 'i', ' '] ['!']
     (by decide) (by decide) (by decide) (by decide)⟩

/- ─────────────── Session Coordinator (Sandbox) model ─────────────── -/

/-- Session stage (`SessionStage` in part_000). -/
inductive Stage
  | idle
  | restoring
  | running
  | done
deriving DecidableEq, Repr, BEq

/-- Persisted session state (`SessionState` in part_000). -/
structure SessionState where
  sessionId : String
  leaseId : String
  hostname : String
  stage : Stage
  epoch : Nat
  previewUrl : Option String
  modifiedFiles : List String
deriving DecidableEq, Repr

/-- Attachment connection state (`WsAttachment.state`). -/
inductive AttSt
  | connected
  | ready
deriving DecidableEq, Repr, BEq

/-- Socket attachment (`WsAttachment`): id, handshake state, replaced flag. -/
structure SockAtt where
  socketId : String
  attSt : AttSt
  replaced : Bool
deriving DecidableEq, Repr

/-- Protocol messages sent to clients (§6 of the spec; the `#send` /
`#broadcast` payloads of part_000).  Fields that the source omits from a
given payload are modelled as `none`. -/
inductive Msg
  | welcome (sessionId : String) (stage : Stage) (previewUrl : Option String)
      (epoch : Nat)
  | ready
  | status (step : String) (message : String) (epoch : Option Nat)
  | preview (url : String) (epoch : Nat)
  | done (sessionId : String) (url : Option String) (epoch : Nat)
  | restored (sessionId : String) (url : String) (epoch : Nat)
  | error (message : String) (epoch : Option Nat)
  | expired
  | full (active : Nat)
deriving DecidableEq, Repr

/-- Externally visible effects of the Coordinator, in chronological order:
persisting state, sending a message, invoking the execution environment,
object-store reads/writes, file writes, lease renew/release, alarm and
storage management, socket closes. -/
inductive Eff
  | saveState (s : SessionState)
  | sendMsg (m : Msg)
  | extCall (name : String)
  | r2Get (key : String)
  | r2Put (key : String) (content : String)
  | writeF (path : String) (content : String)
  | renewLeaseE (leaseId : String)
  | releaseLease (leaseId : String)
  | deleteAlarmE
  | deleteStateE
  | setAlarmE
  | closeSock (socketId : String)
deriving DecidableEq, Repr

/-- JS `String(err)` rendering of a thrown `Error` with message `m`. -/
def errString (m : String) : String := "Error: " ++ m

/-- `PROJECT_DIR + "/src/App.tsx"`, the artifact written by generation. -/
def appPath : String := "/home/user/goose-pond/src/App.tsx"

/-- Accumulator for `lastSegment`: the characters of the current segment
(reversed); a slash starts a new segment. -/
def lastSegAux : List Char → List Char → List Char
  | [], acc => acc.reverse
  | '/' :: rest, _ => lastSegAux rest []
  | c :: rest, acc => lastSegAux rest (c :: acc)

/-- JS `filePath.split("/").pop()` — the last path segment. -/
def lastSegment (p : String) : String := String.mk (lastSegAux p.data [])

/-- JSON.stringify of the archived manifest `\x7bfiles\x7d`. -/
def manifestJson (files : List String) : String :=
  "\x7b\"files\":[" ++
    String.intercalate "," (files.map (fun f => "\"" ++ f ++ "\"")) ++ "]\x7d"

/-- `Sandbox.#persistToR2`: skip when `modifiedFiles` is empty, otherwise put
the manifest and then each artifact's current content keyed by filename
(errors are swallowed in the source and not modelled). -/
def persistToR2 (s : SessionState) (readBack : String → String) : List Eff :=
  if s.modifiedFiles.isEmpty then []
  else
    Eff.r2Put ("sessions/" ++ s.sessionId ++ "/manifest.json")
        (manifestJson s.modifiedFiles)
      :: s.modifiedFiles.map (fun p =>
          Eff.r2Put ("sessions/" ++ s.sessionId ++ "/" ++ lastSegment p)
            (readBack p))

/-- `Sandbox.#withContainerRetry` with `attempts` tries remaining and `i` the
zero-based index of the next attempt; the oracle `out` yields each attempt's
outcome.  A failed non-final attempt broadcasts a status naming the next
attempt number (tagged with the epoch when one was supplied) and retries. -/
def retryAux {α : Type} (out : Nat → Except String α) (tag : Option Nat) :
    Nat → Nat → List Eff × Except String α
  | 0, _ => ([], Except.error "unreachable")
  | n + 1, i =>
    match out i with
    | Except.ok v => ([Eff.extCall "containerOp"], Except.ok v)
    | Except.error e =>
      match n with
      | 0 => ([Eff.extCall "containerOp"], Except.error e)
      | m + 1 =>
        let rest := retryAux out tag (m + 1) (i + 1)
        (Eff.extCall "containerOp"
          :: Eff.sendMsg (Msg.status "server"
              ("Waiting for container… (attempt " ++ toString (i + 2) ++ ")")
              tag)
          :: rest.1, rest.2)

/-- `Sandbox.#withContainerRetry` with the source's fixed `attempts = 5`. -/
def withContainerRetry {α : Type} (out : Nat → Except String α)
    (tag : Option Nat) : List Eff × Except String α :=
  retryAux out tag 5 0

/-- Oracle for the external calls of one generation attempt
(`Sandbox.#runGeneration`): the retried dev-server start, the port wait, the
port exposure (with its resulting public URL), the retried source reads, the
generation service, the artifact write, and the contents `#persistToR2` reads
back. -/
structure GenOracle where
  startServer : Nat → Except String Unit
  waitPort : Except String Unit
  expose : Except String String
  readFiles : Nat → Except String (String × String × String)
  generate : Except String String
  writeApp : Except String Unit
  readBack : String → String

/-- The in-memory update `state.stage = "running"; state.epoch += 1` at the
head of `Sandbox.#runGeneration`. -/
def bumpRunning (s : SessionState) : SessionState :=
  { s with stage := Stage.running, epoch := s.epoch + 1 }

/-- The in-memory update `state.stage = "restoring"; state.epoch += 1` in the
manifest branch of `Sandbox.#handleHello`. -/
def bumpRestoring (s : SessionState) : SessionState :=
  { s with stage := Stage.restoring, epoch := s.epoch + 1 }

/-- The `state.stage = "idle"` reset of the failure handlers. -/
def idleReset (s : SessionState) : SessionState :=
  { s with stage := Stage.idle }

@[simp] lemma bumpRunning_epoch (s : SessionState) :
    (bumpRunning s).epoch = s.epoch + 1 := rfl

@[simp] lemma bumpRestoring_epoch (s : SessionState) :
    (bumpRestoring s).epoch = s.epoch + 1 := rfl

@[simp] lemma idleReset_epoch (s : SessionState) :
    (idleReset s).epoch = s.epoch := rfl

@[simp] lemma idleReset_stage (s : SessionState) :
    (idleReset s).stage = Stage.idle := rfl

/-- The state after the preview URL has been recorded. -/
def withPreview (s : SessionState) (url : String) : SessionState :=
  { s with previewUrl := some url }

/-- The state persisted by a successful generation: the written artifact as
the sole modified file, `stage = done`. -/
def doneGen (sp : SessionState) : SessionState :=
  { sp with modifiedFiles := [appPath], stage := Stage.done }

/-- The dev-server provisioning phase of `Sandbox.#runGeneration` (skipped
entirely when `previewUrl` is already set): status broadcast, retried
process start, port wait, port exposure, then persist the `previewUrl` and
broadcast `preview`. -/
def genServer (s1 : SessionState) (e : Nat) (g : GenOracle) :
    SessionState × List Eff × Option String :=
  match s1.previewUrl with
  | some _ => (s1, [], none)
  | none =>
    match withContainerRetry g.startServer (some e) with
    | (r1, Except.error msg) =>
      (s1, Eff.sendMsg (Msg.status "server" "Starting dev server…" (some e))
        :: r1, some msg)
    | (r1, Except.ok _) =>
      match g.waitPort with
      | Except.error msg =>
        (s1, Eff.sendMsg (Msg.status "server" "Starting dev server…"
            (some e)) :: r1 ++ [Eff.extCall "waitForPort"], some msg)
      | Except.ok _ =>
        match g.expose with
        | Except.error msg =>
          (s1, Eff.sendMsg (Msg.status "server" "Starting dev server…"
              (some e)) :: r1
            ++ [Eff.extCall "waitForPort", Eff.extCall "exposePort"],
            some msg)
        | Except.ok url =>
          (withPreview s1 url,
            Eff.sendMsg (Msg.status "server" "Starting dev server…"
                (some e)) :: r1
              ++ [Eff.extCall "waitForPort", Eff.extCall "exposePort",
                  Eff.saveState (withPreview s1 url),
                  Eff.sendMsg (Msg.preview url e)], none)

/-- The content phase of `Sandbox.#runGeneration`: lease renewal, status
broadcasts, retried source reads, generation-service call, artifact
write-back, persist `stage = done`, archive, renew, broadcast `done`. -/
def genAfter (sp : SessionState) (e : Nat) (g : GenOracle) :
    SessionState × List Eff × Option String :=
  match withContainerRetry g.readFiles (some e) with
  | (r2, Except.error msg) =>
    (sp, Eff.renewLeaseE sp.leaseId
      :: Eff.sendMsg (Msg.status "agent" "Agent is reading code…" (some e))
      :: r2, some msg)
  | (r2, Except.ok _) =>
    match g.generate with
    | Except.error msg =>
      (sp, Eff.renewLeaseE sp.leaseId
        :: Eff.sendMsg (Msg.status "agent" "Agent is reading code…"
            (some e))
        :: r2
        ++ [Eff.sendMsg (Msg.status "agent" "Agent is thinking…" (some e)),
            Eff.extCall "generateText"], some msg)
    | Except.ok text =>
      match g.writeApp with
      | Except.error msg =>
        (sp, Eff.renewLeaseE sp.leaseId
          :: Eff.sendMsg (Msg.status "agent" "Agent is reading code…"
              (some e))
          :: r2
          ++ [Eff.sendMsg (Msg.status "agent" "Agent is thinking…"
                (some e)),
              Eff.extCall "generateText",
              Eff.sendMsg (Msg.status "modify" "Applying changes…"
                (some e))], some msg)
      | Except.ok _ =>
        (doneGen sp, Eff.renewLeaseE sp.leaseId
          :: Eff.sendMsg (Msg.status "agent" "Agent is reading code…"
              (some e))
          :: r2
          ++ [Eff.sendMsg (Msg.status "agent" "Agent is thinking…"
                (some e)),
              Eff.extCall "generateText",
              Eff.sendMsg (Msg.status "modify" "Applying changes…"
                (some e)),
              Eff.writeF appPath (extractCode text),
              Eff.saveState (doneGen sp)]
          ++ persistToR2 (doneGen sp) g.readBack
          ++ [Eff.renewLeaseE (doneGen sp).leaseId,
              Eff.sendMsg (Msg.done (doneGen sp).sessionId
                (doneGen sp).previewUrl e)], none)

def genTry (s1 : SessionState) (e : Nat) (g : GenOracle) :
    SessionState × List Eff × Option String :=
  match genServer s1 e g with
  | (sp, effsA, some msg) => (sp, effsA, some msg)
  | (sp, effsA, none) =>
    match genAfter sp e g with
    | (sf, effsB, r) => (sf, effsA ++ effsB, r)

/-- `Sandbox.#runGeneration`: bump the epoch by one and persist
`stage = running` before any I/O; on failure re-load state, reset the stage
to idle (epoch untouched) and broadcast `error` (tagged with the attempt
epoch) then `ready`. -/
def runGeneration (s0 : SessionState) (g : GenOracle) :
    SessionState × List Eff :=
  match genTry (bumpRunning s0) (bumpRunning s0).epoch g with
  | (sc, effs, some msg) =>
    (idleReset sc, Eff.saveState (bumpRunning s0) :: effs
      ++ [Eff.saveState (idleReset sc),
          Eff.sendMsg (Msg.error (errString msg)
            (some (bumpRunning s0).epoch)),
          Eff.sendMsg Msg.ready])
  | (sc, effs, none) => (sc, Eff.saveState (bumpRunning s0) :: effs)

/-- Oracle for one restore attempt (`Sandbox.#restoreSession`): the parsed
manifest file list, the object store contents, the retried per-file write
outcomes, and the dev-server provisioning outcomes. -/
structure RestoreOracle where
  files : List String
  store : String → Option String
  writeOut : String → Nat → Except String Unit
  startServer : Nat → Except String Unit
  waitPort : Except String Unit
  expose : Except String String

/-- Key of an archived artifact for a session. -/
def fileKey (sid fp : String) : String :=
  "sessions/" ++ sid ++ "/" ++ lastSegment fp

/-- Key of the archived manifest for a session. -/
def manifestKeyOf (sid : String) : String :=
  "sessions/" ++ sid ++ "/manifest.json"

/-- The restore loop of `Sandbox.#restoreSession`: for each manifest path,
fetch the archived content by filename and write it into the execution
environment (through the retry wrapper), throwing a "Missing R2 object"
error as soon as an artifact is absent. -/
def restoreFiles (sid : String) (ro : RestoreOracle) (e : Nat) :
    List String → List Eff × Option String
  | [] => ([], none)
  | fp :: fps =>
    match ro.store (fileKey sid fp) with
    | none => ([Eff.r2Get (fileKey sid fp)],
        some ("Missing R2 object: " ++ fileKey sid fp))
    | some content =>
      match withContainerRetry (ro.writeOut fp) (some e) with
      | (wEffs, Except.error m) =>
        (Eff.r2Get (fileKey sid fp) :: wEffs, some m)
      | (wEffs, Except.ok _) =>
        (Eff.r2Get (fileKey sid fp) :: wEffs
          ++ Eff.writeF fp content :: (restoreFiles sid ro e fps).1,
         (restoreFiles sid ro e fps).2)

/-- Failure handler of `Sandbox.#restoreSession`: reset `stage` to idle,
broadcast `error` ("Restore failed: " followed by the JS rendering of the
thrown error) tagged with the attempt epoch, then `ready`. -/
def restoreCatch (s : SessionState) (e : Nat) (m : String) (pre : List Eff) :
    SessionState × List Eff :=
  (idleReset s, pre ++ [Eff.saveState (idleReset s),
    Eff.sendMsg (Msg.error ("Restore failed: " ++ errString m) (some e)),
    Eff.sendMsg Msg.ready])

/-- The state persisted by a successful restore: previewUrl set, the
manifest's files recorded, `stage = done`. -/
def doneRestore (s : SessionState) (url : String) (files : List String) :
    SessionState :=
  { s with
    previewUrl := some url
    modifiedFiles := files
    stage := Stage.done }

def restoreSession (s : SessionState) (ro : RestoreOracle) (e : Nat) :
    SessionState × List Eff :=
  match restoreFiles s.sessionId ro e ro.files with
  | (fEffs, some m) =>
    restoreCatch s e m
      (Eff.sendMsg (Msg.status "restoring" "Restoring previous session…"
        (some e)) :: fEffs)
  | (fEffs, none) =>
    match withContainerRetry ro.startServer (some e) with
    | (r1, Except.error m) =>
      restoreCatch s e m
        (Eff.sendMsg (Msg.status "restoring" "Restoring previous session…"
            (some e)) :: fEffs
          ++ Eff.sendMsg (Msg.status "server" "Starting dev server…"
              (some e)) :: r1)
    | (r1, Except.ok _) =>
      match ro.waitPort with
      | Except.error m =>
        restoreCatch s e m
          (Eff.sendMsg (Msg.status "restoring" "Restoring previous session…"
              (some e)) :: fEffs
            ++ Eff.sendMsg (Msg.status "server" "Starting dev server…"
                (some e)) :: r1 ++ [Eff.extCall "waitForPort"])
      | Except.ok _ =>
        match ro.expose with
        | Except.error m =>
          restoreCatch s e m
            (Eff.sendMsg (Msg.status "restoring"
                "Restoring previous session…" (some e)) :: fEffs
              ++ Eff.sendMsg (Msg.status "server" "Starting dev server…"
                  (some e)) :: r1
              ++ [Eff.extCall "waitForPort", Eff.extCall "exposePort"])
        | Except.ok url =>
          (doneRestore s url ro.files,
            Eff.sendMsg (Msg.status "restoring"
                "Restoring previous session…" (some e)) :: fEffs
              ++ Eff.sendMsg (Msg.status "server" "Starting dev server…"
                  (some e)) :: r1
              ++ [Eff.extCall "waitForPort", Eff.extCall "exposePort",
                  Eff.saveState (doneRestore s url ro.files),
                  Eff.sendMsg (Msg.preview url e),
                  Eff.renewLeaseE (doneRestore s url ro.files).leaseId,
                  Eff.sendMsg (Msg.restored
                    (doneRestore s url ro.files).sessionId url e),
                  Eff.sendMsg Msg.ready])

/-- `Sandbox.#handleHello`: reject a second hello; in `idle`, look up the
archived manifest — if present, bump the epoch, persist `stage = restoring`,
send `welcome` and run the restore; if absent, send `welcome` then `ready`.
In `done`, send `welcome` (with previewUrl) then `ready`; in
`restoring`/`running`, send only `welcome`.  (The source re-checks the stage
after the manifest fetch; in this sequential model the re-read returns the
same state, so the `stage ≠ idle` re-check branch is unreachable.) -/
def handleHello (att : AttSt) (s : SessionState)
    (manifest : Option RestoreOracle) : SessionState × List Eff :=
  match att with
  | AttSt.ready => (s, [Eff.sendMsg (Msg.error "Already sent hello" none)])
  | AttSt.connected =>
    match s.stage with
    | Stage.idle =>
      match manifest with
      | some ro =>
        ((restoreSession (bumpRestoring s) ro (bumpRestoring s).epoch).1,
          Eff.r2Get (manifestKeyOf s.sessionId)
            :: Eff.saveState (bumpRestoring s)
            :: Eff.sendMsg (Msg.welcome s.sessionId Stage.restoring none
                (bumpRestoring s).epoch)
            :: (restoreSession (bumpRestoring s) ro
                (bumpRestoring s).epoch).2)
      | none =>
        (s, [Eff.r2Get (manifestKeyOf s.sessionId),
          Eff.sendMsg (Msg.welcome s.sessionId Stage.idle none s.epoch),
          Eff.sendMsg Msg.ready])
    | Stage.done =>
      (s, [Eff.sendMsg (Msg.welcome s.sessionId Stage.done s.previewUrl
          s.epoch), Eff.sendMsg Msg.ready])
    | Stage.restoring =>
      (s, [Eff.sendMsg (Msg.welcome s.sessionId Stage.restoring s.previewUrl
          s.epoch)])
    | Stage.running =>
      (s, [Eff.sendMsg (Msg.welcome s.sessionId Stage.running s.previewUrl
          s.epoch)])

/-- JS falsiness of the `prompt` argument (`!prompt`): absent or empty. -/
def promptEmpty : Option String → Bool
  | none => true
  | some p => p == ""

/-- `Sandbox.#handleStart`: reject an absent/empty prompt, reject when the
stage is neither idle nor done ("already in progress"), otherwise run the
generation workflow. -/
def handleStart (prompt : Option String) (s : SessionState) (g : GenOracle) :
    SessionState × List Eff :=
  if promptEmpty prompt then
    (s, [Eff.sendMsg (Msg.error "prompt is required" none)])
  else if s.stage ≠ Stage.idle ∧ s.stage ≠ Stage.done then
    (s, [Eff.sendMsg (Msg.error "A generation is already in progress" none)])
  else runGeneration s g

/-- One protocol event on a session, carrying the oracles for the external
calls the event may make. -/
inductive Event
  | helloE (att : AttSt) (manifest : Option RestoreOracle)
  | startE (prompt : Option String) (g : GenOracle)

/-- Dispatch of `Sandbox.webSocketMessage` for a parsed text frame. -/
def stepEvent : Event → SessionState → SessionState × List Eff
  | Event.helloE att manifest, s => handleHello att s manifest
  | Event.startE prompt g, s => handleStart prompt s g

/-- A trace of protocol events applied in sequence. -/
def runTrace : List Event → SessionState → SessionState × List Eff
  | [], s => (s, [])
  | ev :: evs, s =>
    let r1 := stepEvent ev s
    let r2 := runTrace evs r1.1
    (r2.1, r1.2 ++ r2.2)

/-- Epochs of the states persisted by an effect list, in order. -/
def epochsOf : List Eff → List Nat
  | [] => []
  | Eff.saveState s :: l => s.epoch :: epochsOf l
  | _ :: l => epochsOf l

/-- Messages sent by an effect list, in order. -/
def msgsOf : List Eff → List Msg
  | [] => []
  | Eff.sendMsg m :: l => m :: msgsOf l
  | _ :: l => msgsOf l

/-- File writes performed by an effect list, in order. -/
def writesOf : List Eff → List (String × String)
  | [] => []
  | Eff.writeF p c :: l => (p, c) :: writesOf l
  | _ :: l => writesOf l

/-- Is this effect a state persist? -/
def isSaveEff : Eff → Bool
  | Eff.saveState _ => true
  | _ => false

/-- Is this effect a mutating or environment-facing I/O operation (an
execution-environment call, a file write, an object-store write, or a lease
operation)?  Object-store reads and message sends are not counted. -/
def isHeavyIO : Eff → Bool
  | Eff.extCall _ => true
  | Eff.writeF _ _ => true
  | Eff.r2Put _ _ => true
  | Eff.renewLeaseE _ => true
  | Eff.releaseLease _ => true
  | _ => false

/-- Does this event begin an attempt (a generation or restore attempt) from
this state? -/
def isAttempt : Event → SessionState → Bool
  | Event.helloE att manifest, s =>
    decide (att = AttSt.connected) && manifest.isSome
      && decide (s.stage = Stage.idle)
  | Event.startE prompt _, s =>
    !(promptEmpty prompt)
      && (decide (s.stage = Stage.idle) || decide (s.stage = Stage.done))

/-- Epoch tags carried by the attempts of a trace, in order. -/
def traceTags : List Event → SessionState → List Nat
  | [], _ => []
  | ev :: evs, s =>
    (if isAttempt ev s then [s.epoch + 1] else [])
      ++ traceTags evs (stepEvent ev s).1

@[simp] lemma epochsOf_append (a b : List Eff) :
    epochsOf (a ++ b) = epochsOf a ++ epochsOf b := by
  induction a with
  | nil => rfl
  | cons x l ih => cases x <;> simp [epochsOf, ih]

@[simp] lemma msgsOf_append (a b : List Eff) :
    msgsOf (a ++ b) = msgsOf a ++ msgsOf b := by
  induction a with
  | nil => rfl
  | cons x l ih => cases x <;> simp [msgsOf, ih]

@[simp] lemma writesOf_append (a b : List Eff) :
    writesOf (a ++ b) = writesOf a ++ writesOf b := by
  induction a with
  | nil => rfl
  | cons x l ih => cases x <;> simp [writesOf, ih]

/- ─────────── Socket registry, teardown and forced stop ─────────── -/

/-- In-memory connection registry of one Coordinator instance plus its
persisted state. -/
structure Config where
  sockets : List SockAtt
  state : Option SessionState
deriving Repr

/-- The fresh persisted state initialised by `Sandbox.fetch` when none
exists. -/
def initState (sid lid host : String) : SessionState :=
  { sessionId := sid, leaseId := lid, hostname := host, stage := Stage.idle,
    epoch := 0, previewUrl := none, modifiedFiles := [] }

/-- `Sandbox.#finalizeAndDestroy`: best-effort archive of `modifiedFiles`,
best-effort lease release, heartbeat-alarm cancellation, deletion of all
persisted session state. -/
def finalizeAndDestroy (s : SessionState) (readBack : String → String) :
    List Eff :=
  persistToR2 s readBack
    ++ [Eff.releaseLease s.leaseId, Eff.deleteAlarmE, Eff.deleteStateE]

/-- `Sandbox.fetch` on an accepted `/ws/session` upgrade: load (or
initialise) persisted state, accept the new socket first, persist state and
set the heartbeat alarm, then mark every previously registered socket
`replaced` and close it. -/
def connectWs (c : Config) (newId sid lid host : String) :
    Config × List Eff :=
  let st := c.state.getD (initState sid lid host)
  ( { sockets :=
        { socketId := newId, attSt := AttSt.connected, replaced := false }
          :: c.sockets.map (fun sa => { sa with replaced := true }),
      state := some st },
    Eff.saveState st :: Eff.setAlarmE
      :: c.sockets.map (fun sa => Eff.closeSock sa.socketId) )

/-- `Sandbox.webSocketClose`: a no-op while stopping and for a socket whose
`replaced` flag is set; otherwise, when no other socket remains and state
exists, finalize-and-destroy.  (The runtime drops the closed socket from the
registry; the handler itself filters it out of `getWebSockets()`.) -/
def closeWs (c : Config) (wsId : String) (stopping : Bool)
    (readBack : String → String) : Config × List Eff :=
  match c.sockets.find? (fun sa => sa.socketId == wsId) with
  | none => (c, [])
  | some ws =>
    let rest := c.sockets.filter (fun sa => ! (sa.socketId == wsId))
    if stopping then ({ c with sockets := rest }, [])
    else if ws.replaced then ({ c with sockets := rest }, [])
    else if rest.isEmpty then
      match c.state with
      | some st =>
          ({ sockets := rest, state := none }, finalizeAndDestroy st readBack)
      | none => ({ c with sockets := rest }, [])
    else ({ c with sockets := rest }, [])

/-- `Sandbox.onStop`: broadcast `expired`, force-close every socket, then —
when persisted state exists — cancel the heartbeat alarm, delete the
persisted state and best-effort release the lease.  (Note: unlike
`#finalizeAndDestroy`, no archival to the object store is performed.) -/
def onStopM (sockets : List SockAtt) (st : Option SessionState) : List Eff :=
  Eff.sendMsg Msg.expired
    :: sockets.map (fun sa => Eff.closeSock sa.socketId)
    ++ match st with
       | none => []
       | some s => [Eff.deleteAlarmE, Eff.deleteStateE,
           Eff.releaseLease s.leaseId]

/-- Is this effect an object-store write? -/
def isR2Put : Eff → Bool
  | Eff.r2Put _ _ => true
  | _ => false

/-- A concrete socket attachment already marked replaced. -/
def oldSock : SockAtt :=
  { socketId := "old", attSt := AttSt.ready, replaced := true }

/-- A concrete post-generation state with one modified file. -/
def sArch : SessionState :=
  { sessionId := "s", leaseId := "l", hostname := "h", stage := Stage.done,
    epoch := 1, previewUrl := some "U", modifiedFiles := [appPath] }

lemma onStopM_some (sockets : List SockAtt) (s : SessionState) :
    onStopM sockets (some s)
      = Eff.sendMsg Msg.expired
        :: sockets.map (fun sa => Eff.closeSock sa.socketId)
        ++ [Eff.deleteAlarmE, Eff.deleteStateE,
            Eff.releaseLease s.leaseId] := rfl

/-- C3: connecting a new socket marks every previously registered socket
`replaced` (the new socket heads the registry, unreplaced), and the close
handler of any socket whose `replaced` flag is set performs no effect at
all — it leaves the persisted state untouched, releases no lease, performs no
archival and never triggers finalize-and-destroy, even when that socket is
the last one to close. -/
theorem superseded_close_noop :
    (∀ (c : Config) (newId sid lid host : String),
        (∀ sa ∈ ((connectWs c newId sid lid host).1.sockets).tail,
          sa.replaced = true)
        ∧ ((connectWs c newId sid lid host).1.sockets).head?
            = some (SockAtt.mk newId AttSt.connected false))
    ∧ (∀ (c : Config) (wsId : String) (ws : SockAtt)
        (readBack : String → String),
        c.sockets.find? (fun sa => sa.socketId == wsId) = some ws →
        ws.replaced = true →
        (closeWs c wsId false readBack).1.state = c.state
        ∧ (closeWs c wsId false readBack).2 = []) := by
  constructor
  · intro c newId sid lid host
    constructor
    · intro sa hsa
      simp only [connectWs, List.tail_cons] at hsa
      rw [List.mem_map] at hsa
      obtain ⟨sa0, _, heq⟩ := hsa
      rw [← heq]
    · rfl
  · intro c wsId ws readBack hfind hrep
    rw [closeWs, hfind]
    simp [hrep]

/-- Witness for `superseded_close_noop`: in a registry holding only the
replaced socket "old" plus live state, closing "old" leaves the state in
place and produces no effects — even though it is the last socket. -/
theorem superseded_close_noop_witness :
    (Config.mk [oldSock] (some (initState "s" "l" "h"))).sockets.find?
        (fun sa => sa.socketId == "old") = some oldSock
    ∧ (closeWs (Config.mk [oldSock] (some (initState "s" "l" "h")))
        "old" false (fun _ => "")).2 = [] := by
  refine ⟨by decide, ?_⟩
  exact (superseded_close_noop.2
    (Config.mk [oldSock] (some (initState "s" "l" "h"))) "old" oldSock
    (fun _ => "") (by decide) rfl).2

/-- C6 counterexample: `onStop` does not perform the same finalize/teardown
sequence as normal teardown — it performs no archival at all.  For a state
with one modified file, `onStop` emits zero object-store writes while
`#finalizeAndDestroy` emits two (manifest plus artifact). -/
theorem onStop_no_archival :
    (onStopM [] (some sArch)).countP isR2Put = 0
    ∧ (finalizeAndDestroy sArch (fun _ => "content")).countP isR2Put = 2
    ∧ sArch.modifiedFiles ≠ [] := by
  refine ⟨by decide, by decide, by decide⟩

/-- C6 (amended): when forcibly stopped, the Coordinator broadcasts
`expired`, closes every socket, and — when state exists — cancels the
heartbeat alarm, deletes the persisted session state and best-effort releases
the lease; unlike `#finalizeAndDestroy` (which archives `modifiedFiles`
before releasing the lease and cleaning storage), `onStop` performs no
archival of `modifiedFiles` to the object store. -/
theorem onStop_teardown :
    ∀ (sockets : List SockAtt) (s : SessionState) (rb : String → String),
      (∀ x ∈ onStopM sockets (some s), isR2Put x = false)
      ∧ Eff.sendMsg Msg.expired ∈ onStopM sockets (some s)
      ∧ (∀ sa ∈ sockets, Eff.closeSock sa.socketId ∈ onStopM sockets (some s))
      ∧ Eff.deleteAlarmE ∈ onStopM sockets (some s)
      ∧ Eff.deleteStateE ∈ onStopM sockets (some s)
      ∧ Eff.releaseLease s.leaseId ∈ onStopM sockets (some s)
      ∧ (s.modifiedFiles ≠ [] →
          ∃ x ∈ finalizeAndDestroy s rb, isR2Put x = true) := by
  intro sockets s rb
  rw [onStopM_some]
  refine ⟨?_, ?_, ?_, ?_, ?_, ?_, ?_⟩
  · intro x hx
    rcases List.mem_cons.mp hx with rfl | hx
    · rfl
    rcases List.mem_append.mp hx with hx | hx
    · obtain ⟨sa, _, rfl⟩ := List.mem_map.mp hx
      rfl
    · fin_cases hx <;> rfl
  · exact List.mem_cons_self _ _
  · intro sa hsa
    exact List.mem_cons_of_mem _
      (List.mem_append_left _ (List.mem_map_of_mem _ hsa))
  · exact List.mem_cons_of_mem _ (List.mem_append_right _ (by simp))
  · exact List.mem_cons_of_mem _ (List.mem_append_right _ (by simp))
  · exact List.mem_cons_of_mem _ (List.mem_append_right _ (by simp))
  · intro hne
    refine ⟨Eff.r2Put (manifestKeyOf s.sessionId)
        (manifestJson s.modifiedFiles), ?_, rfl⟩
    simp only [finalizeAndDestroy, persistToR2, List.mem_append]
    left
    rw [if_neg (by simpa [List.isEmpty_iff] using hne)]
    simp [manifestKeyOf]

/-- Witness for `onStop_teardown`: instance with one socket and a state with
one modified file; the `modifiedFiles ≠ []` hypothesis holds and finalize
does archive. -/
theorem onStop_teardown_witness :
    sArch.modifiedFiles ≠ []
    ∧ ∃ x ∈ finalizeAndDestroy sArch (fun _ => "content"),
        isR2Put x = true := by
  refine ⟨by decide, ?_⟩
  exact (onStop_teardown [oldSock] sArch (fun _ => "content")).2.2.2.2.2.2
    (by decide)

/- ─────────────── Generation workflow lemmas, C4 ─────────────── -/

lemma retryAux_epochs {α : Type} (out : Nat → Except String α)
    (tag : Option Nat) :
    ∀ (n i : Nat), epochsOf (retryAux out tag n i).1 = [] := by
  intro n
  induction n with
  | zero => intro i; rfl
  | succ n ih =>
    intro i
    cases ho : out i with
    | ok v => simp [retryAux, ho, epochsOf]
    | error e =>
      cases n with
      | zero => simp [retryAux, ho, epochsOf]
      | succ m =>
        have hunf : retryAux out tag (m + 1 + 1) i
            = (Eff.extCall "containerOp"
                :: Eff.sendMsg (Msg.status "server"
                  ("Waiting for container… (attempt " ++ toString (i + 2)
                    ++ ")") tag)
                :: (retryAux out tag (m + 1) (i + 1)).1,
              (retryAux out tag (m + 1) (i + 1)).2) := by
          rw [retryAux, ho]
        rw [hunf]
        simp [epochsOf, ih (i + 1)]

lemma retryAux_writes {α : Type} (out : Nat → Except String α)
    (tag : Option Nat) :
    ∀ (n i : Nat), writesOf (retryAux out tag n i).1 = [] := by
  intro n
  induction n with
  | zero => intro i; rfl
  | succ n ih =>
    intro i
    cases ho : out i with
    | ok v => simp [retryAux, ho, writesOf]
    | error e =>
      cases n with
      | zero => simp [retryAux, ho, writesOf]
      | succ m =>
        have hunf : retryAux out tag (m + 1 + 1) i
            = (Eff.extCall "containerOp"
                :: Eff.sendMsg (Msg.status "server"
                  ("Waiting for container… (attempt " ++ toString (i + 2)
                    ++ ")") tag)
                :: (retryAux out tag (m + 1) (i + 1)).1,
              (retryAux out tag (m + 1) (i + 1)).2) := by
          rw [retryAux, ho]
        rw [hunf]
        simp [writesOf, ih (i + 1)]

lemma withContainerRetry_ok {α : Type} (out : Nat → Except String α)
    (tag : Option Nat) (v : α) (h : out 0 = Except.ok v) :
    withContainerRetry out tag = ([Eff.extCall "containerOp"],
      Except.ok v) := by
  rw [withContainerRetry, retryAux, h]


lemma withRetry_epochs {α : Type} (out : Nat → Except String α)
    (tag : Option Nat) : epochsOf (withContainerRetry out tag).1 = [] :=
  retryAux_epochs out tag 5 0

lemma withRetry_writes {α : Type} (out : Nat → Except String α)
    (tag : Option Nat) : writesOf (withContainerRetry out tag).1 = [] :=
  retryAux_writes out tag 5 0

lemma genServer_epoch (s1 : SessionState) (e : Nat) (g : GenOracle) :
    (genServer s1 e g).1.epoch = s1.epoch
    ∧ (genServer s1 e g).1.leaseId = s1.leaseId
    ∧ (genServer s1 e g).1.sessionId = s1.sessionId
    ∧ (∀ x ∈ epochsOf (genServer s1 e g).2.1, x = s1.epoch)
    ∧ writesOf (genServer s1 e g).2.1 = [] := by
  unfold genServer
  rcases hs : withContainerRetry g.startServer (some e) with ⟨r1, res1⟩
  have e1 := withRetry_epochs g.startServer (some e)
  have w1 := withRetry_writes g.startServer (some e)
  rw [hs] at e1 w1
  cases hp : s1.previewUrl <;> cases res1 <;> cases hw : g.waitPort <;>
    cases hx : g.expose <;>
    simp_all [epochsOf, writesOf, withPreview]

lemma genAfter_epoch (sp : SessionState) (e : Nat) (g : GenOracle) :
    (genAfter sp e g).1.epoch = sp.epoch
    ∧ (∀ x ∈ epochsOf (genAfter sp e g).2.1, x = sp.epoch) := by
  unfold genAfter
  rcases hrf : withContainerRetry g.readFiles (some e) with ⟨r2, res2⟩
  have e2 := withRetry_epochs g.readFiles (some e)
  rw [hrf] at e2
  cases res2 <;> cases hg : g.generate <;> cases ha : g.writeApp <;>
    simp_all [epochsOf, doneGen, persistToR2]

lemma genTry_epoch (s1 : SessionState) (e : Nat) (g : GenOracle) :
    (genTry s1 e g).1.epoch = s1.epoch := by
  rcases hsr : genServer s1 e g with ⟨sp, effsA, err⟩
  have h1 := (genServer_epoch s1 e g).1
  rw [hsr] at h1
  simp only at h1
  cases err with
  | some m =>
    rw [show genTry s1 e g = (sp, effsA, some m) from by rw [genTry, hsr]]
    exact h1
  | none =>
    rcases har : genAfter sp e g with ⟨sf, effsB, r⟩
    have h2 := (genAfter_epoch sp e g).1
    rw [har] at h2
    simp only at h2
    rw [show genTry s1 e g = (sf, effsA ++ effsB, r) from by
      rw [genTry, hsr]
      show (match genAfter sp e g with
        | (sf, effsB, r) => (sf, effsA ++ effsB, r)) = (sf, effsA ++ effsB, r)
      rw [har]]
    simp [h2, h1]

lemma genTry_saves (s1 : SessionState) (e : Nat) (g : GenOracle) :
    ∀ x ∈ epochsOf (genTry s1 e g).2.1, x = s1.epoch := by
  rcases hsr : genServer s1 e g with ⟨sp, effsA, err⟩
  have h1 := (genServer_epoch s1 e g).1
  have hs1 := (genServer_epoch s1 e g).2.2.2.1
  rw [hsr] at h1 hs1
  simp only at h1 hs1
  cases err with
  | some m =>
    rw [show genTry s1 e g = (sp, effsA, some m) from by rw [genTry, hsr]]
    exact hs1
  | none =>
    rcases har : genAfter sp e g with ⟨sf, effsB, r⟩
    have hs2 := (genAfter_epoch sp e g).2
    rw [har] at hs2
    simp only at hs2
    rw [show genTry s1 e g = (sf, effsA ++ effsB, r) from by
      rw [genTry, hsr]
      show (match genAfter sp e g with
        | (sf, effsB, r) => (sf, effsA ++ effsB, r)) = (sf, effsA ++ effsB, r)
      rw [har]]
    intro x hx
    simp only [epochsOf_append] at hx
    rcases List.mem_append.mp hx with hx | hx
    · exact hs1 x hx
    · rw [← h1]
      exact hs2 x hx

lemma runGeneration_epoch (s : SessionState) (g : GenOracle) :
    (runGeneration s g).1.epoch = s.epoch + 1 := by
  rcases hgt : genTry (bumpRunning s) (bumpRunning s).epoch g
    with ⟨sc, effs, err⟩
  have he := genTry_epoch (bumpRunning s) (bumpRunning s).epoch g
  rw [hgt] at he
  simp only [bumpRunning_epoch] at he
  cases err with
  | some m =>
    rw [show runGeneration s g
        = (idleReset sc, Eff.saveState (bumpRunning s) :: effs
          ++ [Eff.saveState (idleReset sc),
              Eff.sendMsg (Msg.error (errString m)
                (some (bumpRunning s).epoch)),
              Eff.sendMsg Msg.ready]) from by rw [runGeneration, hgt]]
    simpa using he
  | none =>
    rw [show runGeneration s g
        = (sc, Eff.saveState (bumpRunning s) :: effs) from by
      rw [runGeneration, hgt]]
    exact he

lemma runGeneration_saves (s : SessionState) (g : GenOracle) :
    ∀ x ∈ epochsOf (runGeneration s g).2, x = s.epoch + 1 := by
  rcases hgt : genTry (bumpRunning s) (bumpRunning s).epoch g
    with ⟨sc, effs, err⟩
  have he := genTry_epoch (bumpRunning s) (bumpRunning s).epoch g
  have hsv := genTry_saves (bumpRunning s) (bumpRunning s).epoch g
  rw [hgt] at he hsv
  simp only [bumpRunning_epoch] at he hsv
  cases err with
  | none =>
    rw [show runGeneration s g
        = (sc, Eff.saveState (bumpRunning s) :: effs) from by
      rw [runGeneration, hgt]]
    intro x hx
    simp only [epochsOf, List.mem_cons] at hx
    rcases hx with rfl | hx
    · rfl
    · exact hsv x hx
  | some m =>
    rw [show runGeneration s g
        = (idleReset sc, Eff.saveState (bumpRunning s) :: effs
          ++ [Eff.saveState (idleReset sc),
              Eff.sendMsg (Msg.error (errString m)
                (some (bumpRunning s).epoch)),
              Eff.sendMsg Msg.ready]) from by rw [runGeneration, hgt]]
    intro x hx
    have hlist : epochsOf (Eff.saveState (bumpRunning s) :: effs
        ++ [Eff.saveState (idleReset sc),
            Eff.sendMsg (Msg.error (errString m)
              (some (bumpRunning s).epoch)),
            Eff.sendMsg Msg.ready])
        = (s.epoch + 1) :: (epochsOf effs ++ [sc.epoch]) := by
      simp [epochsOf]
    rw [hlist] at hx
    simp only [List.mem_cons, List.mem_append, List.not_mem_nil,
      or_false] at hx
    rcases hx with rfl | hx | rfl
    · rfl
    · exact hsv x hx
    · exact he

lemma runGeneration_effs_shape (s : SessionState) (g : GenOracle) :
    ∃ rest, (runGeneration s g).2
      = Eff.saveState (bumpRunning s) :: rest := by
  rcases hgt : genTry (bumpRunning s) (bumpRunning s).epoch g
    with ⟨sc, effs, err⟩
  cases err with
  | some m =>
    rw [show runGeneration s g
        = (idleReset sc, Eff.saveState (bumpRunning s) :: effs
          ++ [Eff.saveState (idleReset sc),
              Eff.sendMsg (Msg.error (errString m)
                (some (bumpRunning s).epoch)),
              Eff.sendMsg Msg.ready]) from by rw [runGeneration, hgt]]
    exact ⟨_, rfl⟩
  | none =>
    rw [show runGeneration s g
        = (sc, Eff.saveState (bumpRunning s) :: effs) from by
      rw [runGeneration, hgt]]
    exact ⟨_, rfl⟩

/-- A concrete oracle whose every external call fails. -/
def gFail : GenOracle :=
  { startServer := fun _ => Except.error "down",
    waitPort := Except.error "down",
    expose := Except.error "down",
    readFiles := fun _ => Except.error "down",
    generate := Except.error "down",
    writeApp := Except.error "down",
    readBack := fun _ => "" }

/-- A concrete state with a generation in flight. -/
def sRunning : SessionState :=
  { sessionId := "s", leaseId := "l", hostname := "h", stage := Stage.running,
    epoch := 3, previewUrl := some "U", modifiedFiles := [] }

/-- C4 counterexample: with `stage = running` but an empty prompt, the start
request is rejected with the error "prompt is required", not with the
"already in progress" condition the claim requires for the running stage
(the prompt check precedes the stage check). -/
theorem start_empty_prompt_precedence :
    sRunning.stage = Stage.running
    ∧ (handleStart (some "") sRunning gFail).2
        = [Eff.sendMsg (Msg.error "prompt is required" none)]
    ∧ ("prompt is required" : String)
        ≠ "A generation is already in progress" := by
  refine ⟨rfl, by decide, by decide⟩

/-- C4 (amended): a start request is rejected with an error reply and no
change to the persisted state exactly when the prompt is empty/missing or
the stage is neither idle nor done; when the prompt is non-empty and the
stage is restoring or running, the error is the explicit "already in
progress" condition (with an empty prompt the prompt check wins and the
error is "prompt is required"); otherwise (non-empty prompt, stage idle or
done) the generation workflow begins. -/
theorem start_gating :
    ∀ (prompt : Option String) (s : SessionState) (g : GenOracle),
      (((handleStart prompt s g).1 = s
          ∧ ∃ m, (handleStart prompt s g).2
              = [Eff.sendMsg (Msg.error m none)])
        ↔ (promptEmpty prompt = true
            ∨ (s.stage ≠ Stage.idle ∧ s.stage ≠ Stage.done)))
      ∧ (promptEmpty prompt = true →
          (handleStart prompt s g).1 = s
          ∧ (handleStart prompt s g).2
              = [Eff.sendMsg (Msg.error "prompt is required" none)])
      ∧ (promptEmpty prompt = false →
          (s.stage = Stage.restoring ∨ s.stage = Stage.running) →
          (handleStart prompt s g).1 = s
          ∧ (handleStart prompt s g).2
              = [Eff.sendMsg
                  (Msg.error "A generation is already in progress" none)])
      ∧ (promptEmpty prompt = false →
          (s.stage = Stage.idle ∨ s.stage = Stage.done) →
          handleStart prompt s g = runGeneration s g) := by
  intro prompt s g
  by_cases hp : promptEmpty prompt = true
  · have hrej : handleStart prompt s g
        = (s, [Eff.sendMsg (Msg.error "prompt is required" none)]) := by
      rw [handleStart, if_pos hp]
    refine ⟨?_, ?_, ?_, ?_⟩
    · rw [hrej]
      constructor
      · intro _
        exact Or.inl hp
      · intro _
        exact ⟨rfl, "prompt is required", rfl⟩
    · intro _
      rw [hrej]
      exact ⟨rfl, rfl⟩
    · intro hfalse
      rw [hp] at hfalse
      exact absurd hfalse (by decide)
    · intro hfalse
      rw [hp] at hfalse
      exact absurd hfalse (by decide)
  · have hp' : promptEmpty prompt = false := by
      cases hpe : promptEmpty prompt
      · rfl
      · exact absurd hpe hp
    by_cases hst : s.stage ≠ Stage.idle ∧ s.stage ≠ Stage.done
    · have hrej : handleStart prompt s g
        = (s, [Eff.sendMsg
            (Msg.error "A generation is already in progress" none)]) := by
        rw [handleStart, if_neg hp, if_pos hst]
      refine ⟨?_, ?_, ?_, ?_⟩
      · rw [hrej]
        constructor
        · intro _
          exact Or.inr hst
        · intro _
          exact ⟨rfl, "A generation is already in progress", rfl⟩
      · intro hfalse
        exact absurd hfalse hp
      · intro _ _
        rw [hrej]
        exact ⟨rfl, rfl⟩
      · intro _ hid
        rcases hid with h | h
        · exact absurd h hst.1
        · exact absurd h hst.2
    · have hid : s.stage = Stage.idle ∨ s.stage = Stage.done := by
        by_cases h1 : s.stage = Stage.idle
        · exact Or.inl h1
        · right
          by_contra h2
          exact hst ⟨h1, h2⟩
      have hrun : handleStart prompt s g = runGeneration s g := by
        rw [handleStart, if_neg hp, if_neg hst]
      refine ⟨?_, ?_, ?_, ?_⟩
      · rw [hrun]
        constructor
        · rintro ⟨h1, _⟩
          have := runGeneration_epoch s g
          rw [h1] at this
          omega
        · intro h
          rcases h with h | h
          · rw [hp'] at h
            exact absurd h (by decide)
          · rcases hid with h1 | h1
            · exact absurd h1 h.1
            · exact absurd h1 h.2
      · intro hfalse
        exact absurd hfalse hp
      · intro _ hbad
        rcases hid with h1 | h1 <;> rcases hbad with h2 | h2 <;>
          simp [h1] at h2
      · intro _ _
        exact hrun

/-- Witness for `start_gating`: a non-empty prompt in the running stage is
rejected with the "already in progress" error and no state change. -/
theorem start_gating_witness :
    promptEmpty (some "x") = false
    ∧ (sRunning.stage = Stage.restoring ∨ sRunning.stage = Stage.running)
    ∧ (handleStart (some "x") sRunning gFail).1 = sRunning
    ∧ (handleStart (some "x") sRunning gFail).2
        = [Eff.sendMsg (Msg.error "A generation is already in progress"
            none)] := by
  refine ⟨by decide, Or.inr rfl, ?_, ?_⟩
  · exact ((start_gating (some "x") sRunning gFail).2.2.1 (by decide)
      (Or.inr rfl)).1
  · exact ((start_gating (some "x") sRunning gFail).2.2.1 (by decide)
      (Or.inr rfl)).2

/- ─────────────── C9: first-session generation scenario ─────────────── -/

/-- A concrete oracle whose every external call succeeds. -/
def gAllOk : GenOracle :=
  { startServer := fun _ => Except.ok (),
    waitPort := Except.ok (),
    expose := Except.ok "U",
    readFiles := fun _ => Except.ok ("a", "g", "c"),
    generate := Except.ok "CODE",
    writeApp := Except.ok (),
    readBack := fun _ => "content" }

/-- C9 counterexample: in the no-manifest first-hello-then-start scenario the
broadcasts do arrive as `welcome{idle}`, `ready`, then the generation
messages with epoch 1 — but `preview{url}` is broadcast immediately after
`status(server)` (as soon as the port is exposed), before the two
`status(agent)` messages and `status(modify)`, not after them as the claim
orders it. -/
theorem generation_broadcast_order_counterexample :
    msgsOf (runTrace [Event.helloE AttSt.connected none,
        Event.startE (some "x") gAllOk] (initState "s" "l" "h")).2
      = [Msg.welcome "s" Stage.idle none 0, Msg.ready,
         Msg.status "server" "Starting dev server…" (some 1),
         Msg.preview "U" 1,
         Msg.status "agent" "Agent is reading code…" (some 1),
         Msg.status "agent" "Agent is thinking…" (some 1),
         Msg.status "modify" "Applying changes…" (some 1),
         Msg.done "s" (some "U") 1]
    ∧ ([Msg.welcome "s" Stage.idle none 0, Msg.ready,
        Msg.status "server" "Starting dev server…" (some 1),
        Msg.preview "U" 1,
        Msg.status "agent" "Agent is reading code…" (some 1),
        Msg.status "agent" "Agent is thinking…" (some 1),
        Msg.status "modify" "Applying changes…" (some 1),
        Msg.done "s" (some "U") 1] : List Msg)
      ≠ [Msg.welcome "s" Stage.idle none 0, Msg.ready,
         Msg.status "server" "Starting dev server…" (some 1),
         Msg.status "agent" "Agent is reading code…" (some 1),
         Msg.status "agent" "Agent is thinking…" (some 1),
         Msg.status "modify" "Applying changes…" (some 1),
         Msg.preview "U" 1,
         Msg.done "s" (some "U") 1] := by
  refine ⟨by decide, by decide⟩

/-- C9 (amended): for a session with no archived manifest, the first hello
produces `welcome{stage: idle, epoch: 0}` followed by `ready`; a subsequent
successful start with a non-empty prompt produces, in this order,
`status(server)`, `preview{url}` (as soon as the port is exposed),
`status(agent)` twice, `status(modify)`, and finally
`done{url, epoch: 1}`. -/
theorem generation_broadcast_order :
    ∀ (sid lid host p url text : String)
      (files : String × String × String) (g : GenOracle),
      p ≠ "" →
      g.startServer 0 = Except.ok () →
      g.waitPort = Except.ok () →
      g.expose = Except.ok url →
      g.readFiles 0 = Except.ok files →
      g.generate = Except.ok text →
      g.writeApp = Except.ok () →
      msgsOf (runTrace [Event.helloE AttSt.connected none,
          Event.startE (some p) g] (initState sid lid host)).2
        = [Msg.welcome sid Stage.idle none 0, Msg.ready,
           Msg.status "server" "Starting dev server…" (some 1),
           Msg.preview url 1,
           Msg.status "agent" "Agent is reading code…" (some 1),
           Msg.status "agent" "Agent is thinking…" (some 1),
           Msg.status "modify" "Applying changes…" (some 1),
           Msg.done sid (some url) 1] := by
  intro sid lid host p url text files g hp h1 h2 h3 h4 h5 h6
  have hr1 := withContainerRetry_ok g.startServer (some 1) () h1
  have hr2 := withContainerRetry_ok g.readFiles (some 1) files h4
  have hpe : promptEmpty (some p) = false := by
    simp [promptEmpty, hp]
  simp [runTrace, stepEvent, handleHello, handleStart, hpe, runGeneration,
    genTry, genServer, genAfter, hr1, hr2, h2, h3, h5, h6, bumpRunning,
    withPreview, doneGen, initState, msgsOf, persistToR2, epochsOf, appPath]

/-- Witness for `generation_broadcast_order` at the all-success oracle
`gAllOk`, prompt "x", session "s". -/
theorem generation_broadcast_order_witness :
    ("x" : String) ≠ ""
    ∧ gAllOk.startServer 0 = Except.ok ()
    ∧ msgsOf (runTrace [Event.helloE AttSt.connected none,
          Event.startE (some "x") gAllOk] (initState "s" "l" "h")).2
        = [Msg.welcome "s" Stage.idle none 0, Msg.ready,
           Msg.status "server" "Starting dev server…" (some 1),
           Msg.preview "U" 1,
           Msg.status "agent" "Agent is reading code…" (some 1),
           Msg.status "agent" "Agent is thinking…" (some 1),
           Msg.status "modify" "Applying changes…" (some 1),
           Msg.done "s" (some "U") 1] := by
  refine ⟨by decide, rfl, ?_⟩
  exact generation_broadcast_order "s" "l" "h" "x" "U" "CODE" ("a", "g", "c")
    gAllOk (by decide) rfl rfl rfl rfl rfl rfl

/- ─────────────── C5: restore fails fast on a missing artifact ─────────────── -/

lemma strData_append (a b : String) : (a ++ b).data = a.data ++ b.data := rfl

lemma restoreFiles_missing (sid : String) (ro : RestoreOracle) (e : Nat)
    (cts : String → String) :
    ∀ (pre : List String) (bad : String) (rest : List String),
      (∀ f ∈ pre, ro.store (fileKey sid f) = some (cts f)) →
      ro.store (fileKey sid bad) = none →
      (∀ f i, ro.writeOut f i = Except.ok ()) →
      (restoreFiles sid ro e (pre ++ bad :: rest)).2
          = some ("Missing R2 object: " ++ fileKey sid bad)
      ∧ writesOf (restoreFiles sid ro e (pre ++ bad :: rest)).1
          = pre.map (fun f => (f, cts f)) := by
  intro pre
  induction pre with
  | nil =>
    intro bad rest hpre hbad hw
    simp only [List.nil_append, List.map_nil]
    rw [restoreFiles]
    simp [hbad, writesOf]
  | cons f pre ih =>
    intro bad rest hpre hbad hw
    have hf : ro.store (fileKey sid f) = some (cts f) := hpre f (by simp)
    have hwr := withContainerRetry_ok (ro.writeOut f) (some e) () (hw f 0)
    have hrec := ih bad rest (fun x hx => hpre x (by simp [hx])) hbad hw
    simp only [List.cons_append]
    rw [restoreFiles]
    simp only [hf, hwr]
    constructor
    · exact hrec.1
    · simp [writesOf, hrec.2]

/-- C5: whenever the archived manifest lists a filename whose object is
absent from the store (all earlier files present and writable), the restore
workflow fails fast at that file: exactly the files before it are written
and none after, the persisted stage is reset to idle with the epoch
untouched, and the effects end with a broadcast `error` whose message
contains "Missing", tagged with the attempt's epoch, followed by `ready`. -/
theorem restore_missing_fails_fast :
    ∀ (s : SessionState) (ro : RestoreOracle) (e : Nat)
      (pre : List String) (bad : String) (rest : List String)
      (cts : String → String),
      ro.files = pre ++ bad :: rest →
      (∀ f ∈ pre, ro.store (fileKey s.sessionId f) = some (cts f)) →
      ro.store (fileKey s.sessionId bad) = none →
      (∀ f i, ro.writeOut f i = Except.ok ()) →
      (restoreSession s ro e).1.stage = Stage.idle
      ∧ (restoreSession s ro e).1.epoch = s.epoch
      ∧ writesOf (restoreSession s ro e).2 = pre.map (fun f => (f, cts f))
      ∧ (∃ l, (restoreSession s ro e).2
          = l ++ [Eff.saveState (idleReset s),
              Eff.sendMsg (Msg.error ("Restore failed: "
                ++ errString ("Missing R2 object: "
                  ++ fileKey s.sessionId bad)) (some e)),
              Eff.sendMsg Msg.ready])
      ∧ (∃ x y : List Char,
          ("Restore failed: " ++ errString ("Missing R2 object: "
            ++ fileKey s.sessionId bad)).data
            = x ++ ("Missing" : String).data ++ y) := by
  intro s ro e pre bad rest cts hfiles hpre hbad hw
  have hmissing := restoreFiles_missing s.sessionId ro e cts pre bad rest
    hpre hbad hw
  rw [← hfiles] at hmissing
  rcases hrf : restoreFiles s.sessionId ro e ro.files with ⟨fEffs, res⟩
  rw [hrf] at hmissing
  simp only at hmissing
  obtain ⟨hm1, hm2⟩ := hmissing
  subst hm1
  have hre : restoreSession s ro e
      = restoreCatch s e ("Missing R2 object: " ++ fileKey s.sessionId bad)
        (Eff.sendMsg (Msg.status "restoring" "Restoring previous session…"
          (some e)) :: fEffs) := by
    rw [restoreSession, hrf]
  rw [hre]
  refine ⟨rfl, rfl, ?_, ?_, ?_⟩
  · simp [restoreCatch, writesOf, hm2]
  · exact ⟨_, rfl⟩
  · refine ⟨("Restore failed: Error: " : String).data,
      (" R2 object: " ++ fileKey s.sessionId bad).data, ?_⟩
    have hjoin : ("Restore failed: Error: " : String).data
        = ("Restore failed: " : String).data
          ++ ("Error: " : String).data := by decide
    have hsplit : ("Missing R2 object: " : String).data
        = ("Missing" : String).data ++ (" R2 object: " : String).data := by
      decide
    simp [errString, strData_append, hjoin, hsplit]

/-- Witness for `restore_missing_fails_fast`: manifest ["a/f1", "a/bad"],
with "f1" archived and "bad" absent; the restore writes only "a/f1" and
resets the stage to idle. -/
theorem restore_missing_fails_fast_witness :
    (RestoreOracle.mk ["a/f1", "a/bad"]
        (fun k => if k = "sessions/s/f1" then some "c1" else none)
        (fun _ _ => Except.ok ())
        (fun _ => Except.ok ())
        (Except.ok ())
        (Except.ok "U")).store
        (fileKey (initState "s" "l" "h").sessionId "a/bad") = none
    ∧ (restoreSession (initState "s" "l" "h")
        (RestoreOracle.mk ["a/f1", "a/bad"]
          (fun k => if k = "sessions/s/f1" then some "c1" else none)
          (fun _ _ => Except.ok ())
          (fun _ => Except.ok ())
          (Except.ok ())
          (Except.ok "U")) 1).1.stage = Stage.idle := by
  refine ⟨by decide, ?_⟩
  exact (restore_missing_fails_fast (initState "s" "l" "h")
    (RestoreOracle.mk ["a/f1", "a/bad"]
      (fun k => if k = "sessions/s/f1" then some "c1" else none)
      (fun _ _ => Except.ok ())
      (fun _ => Except.ok ())
      (Except.ok ())
      (Except.ok "U")) 1 ["a/f1"] "a/bad" [] (fun _ => "c1")
    rfl (by intro f hf; simp at hf; subst hf; decide) (by decide)
    (fun _ _ => rfl)).1

/- ─────────────── C2: epoch per attempt over traces ─────────────── -/

lemma restoreFiles_epochs (sid : String) (ro : RestoreOracle) (e : Nat) :
    ∀ fps : List String, epochsOf (restoreFiles sid ro e fps).1 = [] := by
  intro fps
  induction fps with
  | nil => rfl
  | cons f fps ih =>
    rcases hwr : withContainerRetry (ro.writeOut f) (some e)
      with ⟨wEffs, wres⟩
    have hw := withRetry_epochs (ro.writeOut f) (some e)
    rw [hwr] at hw
    simp only at hw
    cases hsf : ro.store (fileKey sid f) <;> cases wres <;>
      simp_all [restoreFiles, hwr, epochsOf]

lemma restoreSession_facts (s : SessionState) (ro : RestoreOracle)
    (e : Nat) :
    (restoreSession s ro e).1.epoch = s.epoch
    ∧ ∀ x ∈ epochsOf (restoreSession s ro e).2, x = s.epoch := by
  rcases hrf : restoreFiles s.sessionId ro e ro.files with ⟨fEffs, res⟩
  have hfe := restoreFiles_epochs s.sessionId ro e ro.files
  rw [hrf] at hfe
  simp only at hfe
  rcases hR : withContainerRetry ro.startServer (some e) with ⟨r1, res1⟩
  have hRe := withRetry_epochs ro.startServer (some e)
  rw [hR] at hRe
  simp only at hRe
  cases res <;> cases res1 <;> cases hw : ro.waitPort <;>
    cases hx : ro.expose <;>
    simp_all [restoreSession, hR, restoreCatch, epochsOf, doneRestore,
      idleReset, hrf]

lemma stepEvent_not_attempt (ev : Event) (s : SessionState)
    (h : isAttempt ev s = false) :
    (stepEvent ev s).1 = s ∧ epochsOf (stepEvent ev s).2 = [] := by
  cases ev with
  | helloE att manifest =>
    cases att with
    | ready => exact ⟨rfl, rfl⟩
    | connected =>
      cases manifest with
      | none =>
        cases hst : s.stage <;>
          simp [stepEvent, handleHello, hst, epochsOf]
      | some ro =>
        cases hst : s.stage with
        | idle => simp [isAttempt, hst] at h
        | done => simp [stepEvent, handleHello, hst, epochsOf]
        | restoring => simp [stepEvent, handleHello, hst, epochsOf]
        | running => simp [stepEvent, handleHello, hst, epochsOf]
  | startE prompt g =>
    cases hp : promptEmpty prompt with
    | true => simp [stepEvent, handleStart, hp, epochsOf]
    | false =>
      cases hst : s.stage with
      | idle => simp [isAttempt, hp, hst] at h
      | done => simp [isAttempt, hp, hst] at h
      | restoring =>
        have hrej : handleStart prompt s g = (s, [Eff.sendMsg
            (Msg.error "A generation is already in progress" none)]) := by
          rw [handleStart, if_neg (by simp [hp]),
            if_pos ⟨by simp [hst], by simp [hst]⟩]
        simp [stepEvent, hrej, epochsOf]
      | running =>
        have hrej : handleStart prompt s g = (s, [Eff.sendMsg
            (Msg.error "A generation is already in progress" none)]) := by
          rw [handleStart, if_neg (by simp [hp]),
            if_pos ⟨by simp [hst], by simp [hst]⟩]
        simp [stepEvent, hrej, epochsOf]

lemma stepEvent_attempt (ev : Event) (s : SessionState)
    (h : isAttempt ev s = true) :
    (stepEvent ev s).1.epoch = s.epoch + 1
    ∧ (∀ x ∈ epochsOf (stepEvent ev s).2, x = s.epoch + 1)
    ∧ ∃ (preE : List Eff) (s' : SessionState) (postE : List Eff),
        (stepEvent ev s).2 = preE ++ Eff.saveState s' :: postE
        ∧ s'.epoch = s.epoch + 1
        ∧ ∀ x ∈ preE, isSaveEff x = false ∧ isHeavyIO x = false := by
  cases ev with
  | helloE att manifest =>
    cases att with
    | ready => simp [isAttempt] at h
    | connected =>
      cases manifest with
      | none => simp [isAttempt] at h
      | some ro =>
        have hstage : s.stage = Stage.idle := by
          cases hst : s.stage with
          | idle => rfl
          | done => simp [isAttempt, hst] at h
          | restoring => simp [isAttempt, hst] at h
          | running => simp [isAttempt, hst] at h
        have hstep : stepEvent (Event.helloE AttSt.connected (some ro)) s
            = ((restoreSession (bumpRestoring s) ro
                  (bumpRestoring s).epoch).1,
              Eff.r2Get (manifestKeyOf s.sessionId)
                :: Eff.saveState (bumpRestoring s)
                :: Eff.sendMsg (Msg.welcome s.sessionId Stage.restoring none
                    (bumpRestoring s).epoch)
                :: (restoreSession (bumpRestoring s) ro
                    (bumpRestoring s).epoch).2) := by
          simp [stepEvent, handleHello, hstage]
        have hfacts := restoreSession_facts (bumpRestoring s) ro
          (bumpRestoring s).epoch
        rw [hstep]
        refine ⟨?_, ?_, ?_⟩
        · simpa using hfacts.1
        · intro x hx
          simp only [epochsOf, List.mem_cons] at hx
          rcases hx with rfl | hx
          · rfl
          · simpa using hfacts.2 x hx
        · refine ⟨[Eff.r2Get (manifestKeyOf s.sessionId)], bumpRestoring s,
            _, rfl, rfl, ?_⟩
          intro x hx
          simp only [List.mem_singleton] at hx
          subst hx
          exact ⟨rfl, rfl⟩
  | startE prompt g =>
    cases hp : promptEmpty prompt with
    | true => simp [isAttempt, hp] at h
    | false =>
      have hstages : s.stage = Stage.idle ∨ s.stage = Stage.done := by
        cases hst : s.stage with
        | idle => exact Or.inl rfl
        | done => exact Or.inr rfl
        | restoring => simp [isAttempt, hp, hst] at h
        | running => simp [isAttempt, hp, hst] at h
      have hrun : stepEvent (Event.startE prompt g) s
          = runGeneration s g := by
        show handleStart prompt s g = runGeneration s g
        rw [handleStart, if_neg (by simp [hp]), if_neg (by
          rcases hstages with h1 | h1 <;> simp [h1])]
      rw [hrun]
      obtain ⟨rest, hshape⟩ := runGeneration_effs_shape s g
      refine ⟨runGeneration_epoch s g, runGeneration_saves s g,
        [], bumpRunning s, rest, by simpa using hshape, rfl, ?_⟩
      intro x hx
      simp at hx

lemma stepEvent_mono (ev : Event) (s : SessionState) :
    (∀ x ∈ epochsOf (stepEvent ev s).2, x = (stepEvent ev s).1.epoch)
    ∧ s.epoch ≤ (stepEvent ev s).1.epoch := by
  cases ha : isAttempt ev s with
  | false =>
    obtain ⟨h1, h2⟩ := stepEvent_not_attempt ev s ha
    rw [h1, h2]
    exact ⟨by simp, le_refl _⟩
  | true =>
    obtain ⟨h1, h2, _⟩ := stepEvent_attempt ev s ha
    rw [h1]
    exact ⟨fun x hx => by rw [h2 x hx], by omega⟩

lemma chain_const_prefix (b : Nat) (l : List Nat)
    (hl : List.Chain' (· ≤ ·) (b :: l)) :
    ∀ (m : List Nat) (a : Nat), (∀ x ∈ m, x = b) → a ≤ b →
      List.Chain' (· ≤ ·) (a :: (m ++ l)) := by
  intro m
  induction m with
  | nil =>
    intro a _ hab
    simp only [List.nil_append]
    rw [List.chain'_cons'] at hl ⊢
    exact ⟨fun y hy => le_trans hab (hl.1 y hy), hl.2⟩
  | cons c m ih =>
    intro a hm hab
    have hc : c = b := hm c (by simp)
    rw [List.cons_append, List.chain'_cons]
    constructor
    · rw [hc]
      exact hab
    · rw [hc]
      exact ih b (fun x hx => hm x (by simp [hx])) le_rfl

lemma runTrace_cons (ev : Event) (evs : List Event) (s : SessionState) :
    runTrace (ev :: evs) s
      = ((runTrace evs (stepEvent ev s).1).1,
        (stepEvent ev s).2 ++ (runTrace evs (stepEvent ev s).1).2) := by
  rw [runTrace]

lemma runTrace_chain : ∀ (evs : List Event) (s : SessionState),
    List.Chain' (· ≤ ·) (s.epoch :: epochsOf (runTrace evs s).2) := by
  intro evs
  induction evs with
  | nil =>
    intro s
    simp [runTrace, epochsOf]
  | cons ev evs ih =>
    intro s
    have hmono := stepEvent_mono ev s
    have hch := ih (stepEvent ev s).1
    rw [runTrace_cons]
    simp only [epochsOf_append]
    exact chain_const_prefix (stepEvent ev s).1.epoch _ hch _ s.epoch
      hmono.1 hmono.2

lemma traceTags_lb : ∀ (evs : List Event) (s : SessionState),
    ∀ t ∈ traceTags evs s, s.epoch < t := by
  intro evs
  induction evs with
  | nil =>
    intro s t ht
    simp [traceTags] at ht
  | cons ev evs ih =>
    intro s t ht
    rw [traceTags] at ht
    rcases List.mem_append.mp ht with ht | ht
    · cases ha : isAttempt ev s
      · simp [ha] at ht
      · simp only [ha, if_true, List.mem_singleton] at ht
        omega
    · have h1 := ih (stepEvent ev s).1 t ht
      have h2 : s.epoch ≤ (stepEvent ev s).1.epoch := (stepEvent_mono ev s).2
      omega

lemma traceTags_pairwise : ∀ (evs : List Event) (s : SessionState),
    List.Pairwise (· < ·) (traceTags evs s) := by
  intro evs
  induction evs with
  | nil =>
    intro s
    simp [traceTags]
  | cons ev evs ih =>
    intro s
    rw [traceTags]
    cases ha : isAttempt ev s
    · simpa [ha] using ih (stepEvent ev s).1
    · simp only [ha, if_true, List.singleton_append]
      rw [List.pairwise_cons]
      constructor
      · intro t ht
        have h1 := traceTags_lb evs (stepEvent ev s).1 t ht
        have h2 : (stepEvent ev s).1.epoch = s.epoch + 1 :=
          (stepEvent_attempt ev s ha).1
        omega
      · exact ih (stepEvent ev s).1

/-- C2: along any trace of protocol events on a session, the epochs of the
persisted states never decrease (epoch monotonicity); every attempt (a
generation or restore attempt) increments the epoch by exactly one — the
bumped epoch is already carried by every state the attempt persists,
starting with a persist that precedes all environment calls and writes of
the attempt (only the manifest-existence read of the hello handler and
message sends may precede it), and the attempt's final state carries it
whether the attempt succeeds or fails; and the epoch tags of distinct
attempts in a trace are pairwise distinct. -/
theorem epoch_per_attempt :
    (∀ (evs : List Event) (s0 : SessionState),
        List.Chain' (· ≤ ·) (s0.epoch :: epochsOf (runTrace evs s0).2)
        ∧ List.Pairwise (· ≠ ·) (traceTags evs s0))
    ∧ (∀ (ev : Event) (s : SessionState), isAttempt ev s = true →
        (stepEvent ev s).1.epoch = s.epoch + 1
        ∧ (∀ x ∈ epochsOf (stepEvent ev s).2, x = s.epoch + 1)
        ∧ ∃ (preE : List Eff) (s' : SessionState) (postE : List Eff),
            (stepEvent ev s).2 = preE ++ Eff.saveState s' :: postE
            ∧ s'.epoch = s.epoch + 1
            ∧ ∀ x ∈ preE, isSaveEff x = false ∧ isHeavyIO x = false) := by
  constructor
  · intro evs s0
    refine ⟨runTrace_chain evs s0, ?_⟩
    exact (traceTags_pairwise evs s0).imp (fun h => Nat.ne_of_lt h)
  · intro ev s h
    exact stepEvent_attempt ev s h

/-- Witness for `epoch_per_attempt`: a start event with a non-empty prompt
on a fresh idle session is an attempt and bumps the persisted epoch from 0
to 1. -/
theorem epoch_per_attempt_witness :
    isAttempt (Event.startE (some "x") gFail) (initState "s" "l" "h") = true
    ∧ (stepEvent (Event.startE (some "x") gFail)
          (initState "s" "l" "h")).1.epoch
        = (initState "s" "l" "h").epoch + 1 :=
  ⟨by decide, (epoch_per_attempt.2 (Event.startE (some "x") gFail)
    (initState "s" "l" "h") (by decide)).1⟩
